import Mathlib

/-!
# Emotisphere backend: broadcast hub and enrichment pipeline

A shallow embedding of the Go backend (`websocket/hub.go`, `websocket/client.go`,
`websocket/message.go`, `services/news.go`, `services/emotion.go`,
`services/location.go`, `services/processor.go`) together with theorems about
its behaviour.

Conventions of the embedding.

* A `*Client` pointer is a natural number; the objects the pointers refer to
  live in a heap `Hub.mem`.
* A Go channel is its queue of buffered values plus its `closed` flag.  Sending
  on a closed channel and closing a closed channel raise a run-time panic; an
  operation therefore yields an `Outcome`, which is either `done` or
  `panicked`, each carrying the state reached.
* A Go `string` is a sequence of bytes.  Text that arrives from JSON is valid
  UTF-8 and is held in a Lean `String`; `len` and slicing act on its UTF-8
  bytes (`goBytes`).
* `float64` values are only transported and compared; they are Lean `Float`s.
* Network exchanges are oracles supplied as parameters.
-/

namespace Emotisphere

/-! ## websocket/message.go -/

/-- EmotionData of `message.go`.  `Text` is a byte string: it is produced by a
byte slice of the article text and need not be valid UTF-8. -/
structure EmotionData where
  City : String
  Country : String
  Emotion : String
  Intensity : Float
  Lat : Float
  Lng : Float
  Text : List UInt8

/-- Message of `message.go` (its field `Type` is `Typ` here, `Type` being a
Lean keyword); the only payload this backend ever stores in `Data`
is an `EmotionData`. -/
structure Message where
  Typ : String
  Data : EmotionData

def MessageTypeEmotion : String := "emotion"
def MessageTypeError : String := "error"
def MessageTypeInfo : String := "info"

/-! ## Channels -/

/-- State of a `chan Message`: the buffered values, oldest first, and whether
the channel has been closed. -/
structure Chan where
  buf : List Message
  closed : Bool

/-- Capacity of every client mailbox: `make(chan Message, 256)` in `NewClient`. -/
def sendCap : Nat := 256

/-- Result of the non-blocking send `select { case ch <- m: default: }`. -/
inductive SendResult where
  | sent (ch : Chan)
  | full
  | panic

/-- Non-blocking send.  A send on a closed channel panics, also inside a
`select`; otherwise the value is buffered when there is room, and the `default`
branch is taken when there is none. -/
def Chan.trySend (ch : Chan) (m : Message) : SendResult :=
  if ch.closed then .panic
  else if ch.buf.length < sendCap then .sent { ch with buf := ch.buf ++ [m] }
  else .full

/-- Builtin `close(ch)`; `none` is the panic for closing a closed channel. -/
def Chan.close (ch : Chan) : Option Chan :=
  if ch.closed then none else some { ch with closed := true }

/-! ## websocket/client.go -/

/-- The part of a `Client` that the hub and the write pump act on: the mailbox
`Send`, and `Conn`, the messages the write pump has taken from the mailbox and
handed to the connection, oldest first. -/
structure Client where
  Send : Chan
  Conn : List Message

/-- NewClient: a fresh, open, empty mailbox (of capacity `sendCap`). -/
def NewClient : Client := { Send := { buf := [], closed := false }, Conn := [] }

/-! ## websocket/hub.go -/

/-- The hub's registry `Clients` (the key set of `map[*Client]bool`) and the
heap of client objects. -/
structure Hub where
  Clients : Finset Nat
  mem : Nat → Client

/-- NewHub: empty registry; every client object is as `NewClient` made it. -/
def NewHub : Hub := { Clients := ∅, mem := fun _ => NewClient }

/-- Result of running a piece of hub code from some state. -/
inductive Outcome where
  | done (h : Hub)
  | panicked (h : Hub)

/-- The state an outcome carries. -/
def Outcome.state : Outcome → Hub
  | .done h => h
  | .panicked h => h

/-- Sequencing: nothing runs after a panic. -/
def Outcome.andThen (o : Outcome) (f : Hub → Outcome) : Outcome :=
  match o with
  | .done h => f h
  | .panicked h => .panicked h

/-- Overwrite the mailbox of client `c`. -/
def Hub.setSend (h : Hub) (c : Nat) (ch : Chan) : Hub :=
  { h with mem := Function.update h.mem c { (h.mem c) with Send := ch } }

/-- The case `client := <-h.Register` of `Hub.Run`. -/
def Hub.register (h : Hub) (c : Nat) : Outcome :=
  .done { h with Clients := insert c h.Clients }

/-- The case `client := <-h.Unregister` of `Hub.Run`: when the client is in the
registry it is deleted and then its mailbox is closed. -/
def Hub.unregister (h : Hub) (c : Nat) : Outcome :=
  if c ∈ h.Clients then
    let h1 : Hub := { h with Clients := h.Clients.erase c }
    match (h1.mem c).Send.close with
    | some ch => .done (h1.setSend c ch)
    | none => .panicked h1
  else .done h

/-- Body of the `range h.Clients` loop of the broadcast case for one client:
a non-blocking send, and on `default` the mailbox is closed and the client is
deleted from the registry. -/
def Hub.deliver (m : Message) (h : Hub) (c : Nat) : Outcome :=
  match (h.mem c).Send.trySend m with
  | .sent ch => .done (h.setSend c ch)
  | .full =>
    match (h.mem c).Send.close with
    | some ch =>
      let h1 := h.setSend c ch
      .done { h1 with Clients := h1.Clients.erase c }
    | none => .panicked h
  | .panic => .panicked h

/-- The case `message := <-h.Broadcast` of `Hub.Run`, with the clients visited in
the order `order`.  The loop deletes only the entry it is visiting, so a Go map
iteration visits every key of the registry exactly once, in an unspecified
order (see `ValidOrder`). -/
def Hub.broadcast (m : Message) : List Nat → Hub → Outcome
  | [], h => .done h
  | c :: rest, h =>
    match h.deliver m c with
    | .done h1 => Hub.broadcast m rest h1
    | .panicked h1 => .panicked h1

/-- The list `order` is a possible iteration order of the registry: every
registered client once. -/
def ValidOrder (h : Hub) (order : List Nat) : Prop :=
  order.Nodup ∧ order.toFinset = h.Clients

/-- One receive of `Client.WritePump` on the mailbox of `c`: the oldest buffered
message, if any, leaves the mailbox and is handed to the connection.  With an
empty mailbox the pump blocks (open) or returns (closed); the state is the
same. -/
def Hub.WritePump (h : Hub) (c : Nat) : Hub :=
  match (h.mem c).Send.buf with
  | [] => h
  | m :: rest =>
    let cl : Client :=
      { Send := { buf := rest, closed := (h.mem c).Send.closed }, Conn := (h.mem c).Conn ++ [m] }
    { h with mem := Function.update h.mem c cl }

/-- Every registered client has an open mailbox. -/
def Hub.RegisteredOpen (h : Hub) : Prop :=
  ∀ c ∈ h.Clients, (h.mem c).Send.closed = false

/-- The events the hub and the write pumps process: the three cases of
`Hub.Run`, and one receive of a client's `WritePump`. -/
inductive Op where
  | register (c : Nat)
  | unregister (c : Nat)
  | publish (m : Message)
  | drain (c : Nat)

/-- One event, processed from state `h`.  A publish may visit the registry in
any valid order. -/
inductive Step : Hub → Op → Outcome → Prop where
  | register (h : Hub) (c : Nat) : Step h (.register c) (h.register c)
  | unregister (h : Hub) (c : Nat) : Step h (.unregister c) (h.unregister c)
  | publish (h : Hub) (m : Message) (order : List Nat) :
      ValidOrder h order → Step h (.publish m) (h.broadcast m order)
  | drain (h : Hub) (c : Nat) : Step h (.drain c) (.done (h.WritePump c))

/-- A sequence of events, processed in order from state `h`; processing ends
at the first panic. -/
inductive Exec : Hub → List Op → Outcome → Prop where
  | nil (h : Hub) : Exec h [] (.done h)
  | cons {h h1 : Hub} {op : Op} {ops : List Op} {o : Outcome} :
      Step h op (.done h1) → Exec h1 ops o → Exec h (op :: ops) o
  | crash {h h1 : Hub} {op : Op} {ops : List Op} :
      Step h op (.panicked h1) → Exec h (op :: ops) (.panicked h1)

/-- The messages of the publish events of a sequence, in order. -/
def published : List Op → List Message
  | [] => []
  | .publish m :: ops => m :: published ops
  | _ :: ops => published ops

/-- Everything that was ever enqueued on the mailbox of `c`, oldest first: what
the write pump has taken out, then what is still buffered. -/
def Hub.enqueued (h : Hub) (c : Nat) : List Message :=
  (h.mem c).Conn ++ (h.mem c).Send.buf

/-! ## Go strings -/

/-- The bytes of the Go string that holds the text `s`: its UTF-8 encoding. -/
def goBytes (s : String) : List UInt8 :=
  s.data.flatMap String.utf8EncodeChar

/-- Builtin `len(s)` of a string: its number of bytes. -/
def goLen (s : String) : Nat :=
  (goBytes s).length

/-- Slice expression `s[:hi]` on the bytes of a string; `none` is the run-time
panic for a bound out of range. -/
def goSliceTo (b : List UInt8) (hi : Nat) : Option (List UInt8) :=
  if hi ≤ b.length then some (b.take hi) else none

/-! ## services/news.go -/

structure NewsArticle where
  Title : String
  Description : String
  Content : String
  Country : List String
  Language : String
  PubDate : String

structure NewsResponse where
  Status : String
  Results : List NewsArticle
  NextPage : String

/-- What came back from one HTTP GET: the status code, and the body as
`json.Unmarshal` decodes it (`error` when the body cannot be read or decoded). -/
structure NewsReply where
  StatusCode : Nat
  Body : Except String NewsResponse

/-- NewsService.  `Get k url` is the outcome of `ns.Client.Get(url)` for the
`k`-th call of `FetchNews` in a cycle (the network may answer the same URL
differently each time). -/
structure NewsService where
  APIKey : String
  Get : Nat → String → Except String NewsReply

/-- One GET issued to the news API: the regions named in its `country`
parameter, and the URL. -/
structure Fetch where
  countries : List String
  url : String

/-- The loop of `FetchNews` that joins the region codes with commas. -/
def countryStr (countries : List String) : String :=
  countries.enum.foldl
    (fun acc ic => (if ic.1 > 0 then acc ++ "," else acc) ++ ic.2) ""

/-- NewsService.FetchNews, as the `k`-th call of the cycle: the GETs it issues
and what it returns. -/
def NewsService.FetchNews (ns : NewsService) (k : Nat) (countries : List String) :
    List Fetch × Except String (List NewsArticle) :=
  if ns.APIKey = "" then
    ([], .error "NEWSDATA_API_KEY not set in environment variables")
  else
    let countries := if countries.length > 5 then countries.take 5 else countries
    let url := "https://newsdata.io/api/1/news?apikey=" ++ ns.APIKey ++ "&language=en"
    let url := if countries.length > 0 then url ++ "&country=" ++ countryStr countries else url
    let url := url ++ "&category=top"
    ([{ countries := countries, url := url }],
      match ns.Get k url with
      | .error e => .error ("failed to fetch news: " ++ e)
      | .ok resp =>
        if resp.StatusCode ≠ 200 then .error "news API returned an error status"
        else
          match resp.Body with
          | .error e => .error ("failed to parse news response: " ++ e)
          | .ok newsResponse =>
            if newsResponse.Status ≠ "success" then .ok []
            else .ok newsResponse.Results)

/-- NewsService.ExtractText: prefer content, then description, then title. -/
def ExtractText (article : NewsArticle) : String :=
  if article.Content ≠ "" then article.Content
  else if article.Description ≠ "" then article.Description
  else article.Title

/-! ## services/emotion.go -/

structure EmotionResponse where
  Label : String
  Score : Float

/-- EmotionService.  `Post k url text` is the outcome of the HTTP exchange of
`tryAnalyzeWithEndpoint` with the endpoint `url`, made for the `k`-th record of
a cycle, up to and including `parseEmotionResponse`: the decoded list, or
`error` for a failed request, a status other than 200 or an undecodable
body. -/
structure EmotionService where
  APIKey : String
  Model : String
  Post : Nat → String → String → Except String (List EmotionResponse)

/-- The table of `mapEmotionLabel`. -/
def labelMap : List (String × String) :=
  [("joy", "happy"), ("sadness", "sad"), ("anger", "angry"), ("fear", "surprised"),
   ("surprise", "surprised"), ("love", "happy"), ("neutral", "neutral")]

/-- Function mapEmotionLabel of `emotion.go`. -/
def mapEmotionLabel (hfLabel : String) : String :=
  match labelMap.lookup hfLabel with
  | some mapped => mapped
  | none => "neutral"

/-- The selection loop of `tryAnalyzeWithEndpoint`: start from the first entry
and move to an entry whenever its score is greater. -/
def bestEmotion (first : EmotionResponse) (emotions : List EmotionResponse) : EmotionResponse :=
  emotions.foldl (fun best emotion => if emotion.Score > best.Score then emotion else best) first

/-- EmotionService.tryAnalyzeWithEndpoint: the canonical emotion and the score
of the best entry of the reply. -/
def EmotionService.tryAnalyzeWithEndpoint (es : EmotionService) (k : Nat) (url text : String) :
    Except String (String × Float) :=
  match es.Post k url text with
  | .error e => .error e
  | .ok [] => .error "no emotions found in response"
  | .ok (first :: rest) =>
    let best := bestEmotion first (first :: rest)
    .ok (mapEmotionLabel best.Label, best.Score)

/-- The endpoints `AnalyzeEmotion` tries, in order. -/
def EmotionService.endpoints (es : EmotionService) : List String :=
  ["https://router.huggingface.co/hf-inference/v1/models/" ++ es.Model,
   "https://router.huggingface.co/hf-inference/models/" ++ es.Model,
   "https://api-inference.huggingface.co/models/" ++ es.Model]

/-- The loop of `AnalyzeEmotion` over the endpoints: the first success is
returned; after any error the next endpoint is tried. -/
def EmotionService.tryEndpoints (es : EmotionService) (k : Nat) (text : String) :
    List String → String → Except String (String × Float)
  | [], lastErr => .error ("all endpoint attempts failed, last error: " ++ lastErr)
  | url :: urls, _ =>
    match es.tryAnalyzeWithEndpoint k url text with
    | .ok result => .ok result
    | .error e => EmotionService.tryEndpoints es k text urls e

/-- EmotionService.AnalyzeEmotion, for the `k`-th record of a cycle. -/
def EmotionService.AnalyzeEmotion (es : EmotionService) (k : Nat) (text : String) :
    Except String (String × Float) :=
  if es.APIKey = "" then .error "HUGGINGFACE_API_KEY not set in environment variables"
  else es.tryEndpoints k text es.endpoints ""

/-! ## services/location.go -/

/-- LocationService.  `Search k url` is the outcome of the geocoding request for
the `k`-th record of a cycle, through the parsing of the coordinates.  `ToLower`
is `strings.ToLower` of the Go standard library. -/
structure LocationService where
  Search : Nat → String → Except String (Float × Float)
  ToLower : String → String

/-- LocationService.GetCoordinates, for the `k`-th record of a cycle. -/
def LocationService.GetCoordinates (ls : LocationService) (k : Nat) (city country : String) :
    Except String (Float × Float) :=
  if city ≠ "" then
    let query := if country ≠ "" then city ++ ", " ++ country else city
    ls.Search k ("https://nominatim.openstreetmap.org/search?q=" ++ query.replace " " "+" ++
      "&format=json&limit=1")
  else if country ≠ "" then
    ls.Search k ("https://nominatim.openstreetmap.org/search?q=" ++ country.replace " " "+" ++
      "&format=json&limit=1")
  else .error "both city and country are empty"

/-- The table of `mapCountryCode`. -/
def countryMap : List (String × String) :=
  [("us", "United States"), ("cr", "Costa Rica"), ("br", "Brazil"), ("bo", "Bolivia"),
   ("es", "Spain"), ("gb", "United Kingdom"), ("jp", "Japan"), ("ca", "Canada"),
   ("au", "Australia"), ("de", "Germany"), ("fr", "France"), ("it", "Italy"),
   ("mx", "Mexico"), ("in", "India"), ("cn", "China"), ("ru", "Russia"),
   ("kr", "South Korea")]

/-- Function mapCountryCode of `location.go`. -/
def LocationService.mapCountryCode (ls : LocationService) (code : String) : String :=
  match countryMap.lookup (ls.ToLower code) with
  | some name => name
  | none => code

/-- LocationService.ProcessLocation: the city (always empty) and the country
name of the first declared region; it never returns an error. -/
def LocationService.ProcessLocation (ls : LocationService) (countries : List String) :
    Except String (String × String) :=
  match countries with
  | first :: _ => if first ≠ "" then .ok ("", ls.mapCountryCode first) else .ok ("", "United States")
  | [] => .ok ("", "United States")

/-! ## services/processor.go -/

/-- Processor: its three services and the `Running` flag.  (The hub is reached
through the `broadcast` effect, the stop channel through `sendStop`.) -/
structure Processor where
  NewsService : NewsService
  EmotionService : EmotionService
  LocationService : LocationService
  Running : Bool

/-- Function min of `processor.go`. -/
def min (a b : Nat) : Nat :=
  if a < b then a else b

/-- What `ProcessArticle` does that is visible outside it, in order: a call of
`AnalyzeEmotion`, a call of `GetCoordinates`, a message sent on
`p.Hub.Broadcast`, a run-time panic. -/
inductive Effect where
  | analyze (text : String)
  | geocode (city country : String)
  | broadcast (msg : Message)
  | panic

/-- Processor.ProcessArticle, for the `k`-th record of a cycle. -/
def Processor.ProcessArticle (p : Processor) (k : Nat) (article : NewsArticle) : List Effect :=
  let text := ExtractText article
  if text = "" then []
  else
    match p.EmotionService.AnalyzeEmotion k text with
    | .error _ => [.analyze text]
    | .ok (emotion, intensity) =>
      match p.LocationService.ProcessLocation article.Country with
      | .error _ => [.analyze text]
      | .ok (city, country) =>
        match p.LocationService.GetCoordinates k city country with
        | .error _ => [.analyze text, .geocode city country]
        | .ok (lat, lng) =>
          match goSliceTo (goBytes text) (min 100 (goLen text)) with
          | none => [.analyze text, .geocode city country, .panic]
          | some excerpt =>
            [.analyze text, .geocode city country,
             .broadcast
               { Typ := MessageTypeEmotion,
                 Data := { City := city, Country := country, Emotion := emotion,
                           Intensity := intensity, Lat := lat, Lng := lng, Text := excerpt } }]

/-- The messages among the effects, in order. -/
def broadcasts : List Effect → List Message
  | [] => []
  | .broadcast msg :: es => msg :: broadcasts es
  | _ :: es => broadcasts es

/-- The fallback loop of `ProcessBatch` over the regions from position `i` on:
call number `i + 1` fetches the region alone; a result is appended when the call
succeeded with at least one article. -/
def Processor.fallback (p : Processor) :
    Nat → List String → List Fetch × List NewsArticle
  | _, [] => ([], [])
  | i, country :: rest =>
    let r := p.NewsService.FetchNews (i + 1) [country]
    let tail := Processor.fallback p (i + 1) rest
    match r.2 with
    | .ok countryArticles =>
      if countryArticles.length > 0 then (r.1 ++ tail.1, countryArticles ++ tail.2)
      else (r.1 ++ tail.1, tail.2)
    | .error _ => (r.1 ++ tail.1, tail.2)

/-- One cycle as seen from outside: the GETs issued, the records handed to
`ProcessArticle`, in fetch order, and the effects of processing each record.
(Each record is processed in a goroutine of its own; the effects of different
records interleave in an unspecified order.) -/
structure Cycle where
  fetches : List Fetch
  records : List NewsArticle
  effects : List (List Effect)

/-- The final loop of `ProcessBatch`: record `index` is processed by
`ProcessArticle` in its own goroutine. -/
def Processor.processAll (p : Processor) (articles : List NewsArticle) : List (List Effect) :=
  articles.enum.map (fun ia => p.ProcessArticle ia.1 ia.2)

/-- Processor.ProcessBatch. -/
def Processor.ProcessBatch (p : Processor) (countries : List String) : Cycle :=
  let r := p.NewsService.FetchNews 0 countries
  match r.2 with
  | .ok articles =>
    { fetches := r.1, records := articles, effects := p.processAll articles }
  | .error _ =>
    let fb := p.fallback 0 countries
    if fb.2.length = 0 then { fetches := r.1 ++ fb.1, records := [], effects := [] }
    else { fetches := r.1 ++ fb.1, records := fb.2, effects := p.processAll fb.2 }

/-- The messages a cycle sends to the hub, record by record. -/
def Cycle.broadcasts (c : Cycle) : List Message :=
  c.effects.flatMap Emotisphere.broadcasts

/-- What the run loop of `Start` receives: a tick of the ticker or a value on
the stop channel. -/
inductive LoopEvent where
  | tick
  | stop

/-- What `Start` and `Stop` do that is visible outside them: start a cycle
(`go p.ProcessBatch(countries)`), send on the stop channel, panic. -/
inductive Action where
  | cycle (countries : List String)
  | sendStop
  | panic

/-- The `for { select { ... } }` loop of `Start` over the events it receives;
when the events run out the loop is still waiting. -/
def Processor.runLoop (p : Processor) (countries : List String) :
    List LoopEvent → Processor × List Action
  | [] => (p, [])
  | .tick :: events =>
    let r := Processor.runLoop p countries events
    (r.1, .cycle countries :: r.2)
  | .stop :: _ => ({ p with Running := false }, [])

/-- Processor.Start with the events its loop goes on to receive.  `interval` is
a `time.Duration` in nanoseconds; `time.NewTicker` panics unless it is
positive. -/
def Processor.Start (p : Processor) (interval : Int) (countries : List String)
    (events : List LoopEvent) : Processor × List Action :=
  if p.Running then (p, [])
  else
    let p1 := { p with Running := true }
    if interval ≤ 0 then (p1, [.panic])
    else
      let r := p1.runLoop countries events
      (r.1, .cycle countries :: r.2)

/-- Processor.Stop: the processor and the actions performed. -/
def Processor.Stop (p : Processor) : Processor × List Action :=
  if p.Running then (p, [.sendStop]) else (p, [])

/-- Whether `AnalyzeEmotion` succeeds on the text of the `k`-th record. -/
def Processor.classifies (p : Processor) (k : Nat) (article : NewsArticle) : Bool :=
  (p.EmotionService.AnalyzeEmotion k (ExtractText article)).isOk

/-- Whether `GetCoordinates` succeeds on the location of the `k`-th record. -/
def Processor.geocodes (p : Processor) (k : Nat) (article : NewsArticle) : Bool :=
  match p.LocationService.ProcessLocation article.Country with
  | .ok (city, country) => (p.LocationService.GetCoordinates k city country).isOk
  | .error _ => false

/-! ## Example data -/

/-- A news service with a key whose every request fails. -/
def newsDown : NewsService :=
  { APIKey := "key", Get := fun _ _ => .error "connection refused" }

/-- An emotion service whose endpoints answer every text with one entry. -/
def emotionUp : EmotionService :=
  { APIKey := "hf", Model := "m", Post := fun _ _ _ => .ok [{ Label := "joy", Score := 0.9 }] }

/-- A location service whose every lookup succeeds. -/
def locationUp : LocationService :=
  { Search := fun _ _ => .ok (40.4, -3.7), ToLower := fun code => code }

/-- A location service whose lookup for record 1 of a cycle fails. -/
def locationSecondFails : LocationService :=
  { Search := fun k _ => if k = 1 then .error "no location found" else .ok (40.4, -3.7),
    ToLower := fun code => code }

def artABC : NewsArticle :=
  { Title := "C", Description := "B", Content := "A", Country := ["es"], Language := "en",
    PubDate := "" }

def artB : NewsArticle :=
  { Title := "", Description := "B", Content := "", Country := ["es"], Language := "en",
    PubDate := "" }

/-- A record with a title only. -/
def artC : NewsArticle :=
  { Title := "C", Description := "", Content := "", Country := ["es"], Language := "en",
    PubDate := "" }

/-- A record with no text at all. -/
def artNone : NewsArticle :=
  { Title := "", Description := "", Content := "", Country := ["es"], Language := "en",
    PubDate := "" }

/-- A text of 51 characters of two bytes each. -/
def textE : String := String.mk (List.replicate 51 'é')

def artE : NewsArticle :=
  { Title := "", Description := "", Content := textE, Country := ["es"], Language := "en",
    PubDate := "" }

/-- A processor whose news requests all fail and whose other adapters succeed. -/
def procA : Processor :=
  { NewsService := newsDown, EmotionService := emotionUp, LocationService := locationUp,
    Running := false }

/-- A processor whose news request returns two records and whose geocoding
fails for the second. -/
def procB : Processor :=
  { NewsService :=
      { APIKey := "key",
        Get := fun _ _ => .ok { StatusCode := 200,
                                Body := .ok { Status := "success", Results := [artABC, artB],
                                              NextPage := "" } } },
    EmotionService := emotionUp, LocationService := locationSecondFails, Running := false }

/-- An info message. -/
def msgInfo : Message :=
  { Typ := MessageTypeInfo,
    Data := { City := "", Country := "", Emotion := "", Intensity := 0, Lat := 0, Lng := 0,
              Text := [] } }

/-- A hub with subscribers 1 and 2 registered; the mailbox of 2 is full. -/
def hubA : Hub :=
  { Clients := {1, 2},
    mem := fun c =>
      if c = 2 then { Send := { buf := List.replicate 256 msgInfo, closed := false }, Conn := [] }
      else NewClient }

/-- An emotion message. -/
def msgA : Message :=
  { Typ := MessageTypeEmotion,
    Data := { City := "", Country := "Spain", Emotion := "happy", Intensity := 1,
              Lat := 40, Lng := -3, Text := [] } }

/-- A run: subscriber 1 registers, a message is published, the write pump takes
it, the message is published again, and the subscriber unregisters. -/
def opsA : List Op :=
  [.register 1, .publish msgA, .drain 1, .publish msgA, .unregister 1]

/-- Outcome of `opsA` from the initial hub. -/
def outA : Outcome :=
  ((((NewHub.register 1).andThen (fun h => h.broadcast msgA [1])).andThen
      (fun h => .done (h.WritePump 1))).andThen (fun h => h.broadcast msgA [1])).andThen
    (fun h => h.unregister 1)

/-- Seven region codes. -/
def regions7 : List String := ["us", "cr", "br", "bo", "es", "gb", "jp"]

/-- The concatenation, in region order, of the results of the individual
per-region fetches that succeeded: the fetch of the region at position `i` is
call number `i + 1` of the cycle, and a fetch that failed contributes
nothing. -/
def perRegionResults (p : Processor) (countries : List String) : List NewsArticle :=
  countries.enum.flatMap (fun ic =>
    match (p.NewsService.FetchNews (ic.1 + 1) [ic.2]).2 with
    | .ok countryArticles => countryArticles
    | .error _ => [])

/-- A news service whose combined request (call 0) fails, whose request for the
first region returns one record, whose request for the second fails and whose
request for the third returns one record. -/
def newsPartly : NewsService :=
  { APIKey := "key",
    Get := fun k _ =>
      if k = 1 then
        .ok { StatusCode := 200,
              Body := .ok { Status := "success", Results := [artABC], NextPage := "" } }
      else if k = 3 then
        .ok { StatusCode := 200,
              Body := .ok { Status := "success", Results := [artB], NextPage := "" } }
      else .error "connection refused" }

/-- A processor over `newsPartly` whose other adapters succeed. -/
def procC : Processor :=
  { NewsService := newsPartly, EmotionService := emotionUp, LocationService := locationUp,
    Running := false }

/-- The subscribers of the register events of a sequence, in order. -/
def registers : List Op → List Nat
  | [] => []
  | .register c :: ops => c :: registers ops
  | _ :: ops => registers ops

/-- A run from `hubA`: a publish, which drops the full subscriber 2, and then
the unregister of subscriber 2 that its read pump sends on exit. -/
def opsB : List Op := [.publish msgA, .unregister 2]

/-- Outcome of `opsB` from `hubA`, the publish visiting 2 then 1. -/
def outB : Outcome :=
  (hubA.broadcast msgA [2, 1]).andThen (fun h => h.unregister 2)

/-- A run from the initial hub: subscriber 1 registers, a message is published,
and the subscriber is unregistered twice. -/
def opsC : List Op := [.register 1, .publish msgA, .unregister 1, .unregister 1]

/-- Outcome of `opsC` from the initial hub. -/
def outC : Outcome :=
  (((NewHub.register 1).andThen (fun h => h.broadcast msgA [1])).andThen
      (fun h => h.unregister 1)).andThen (fun h => h.unregister 1)

/-- The text "a" followed by 50 characters of two bytes each: 51 characters,
101 bytes. -/
def textF : String := String.mk ('a' :: List.replicate 50 'é')

def artF : NewsArticle :=
  { Title := "", Description := "", Content := textF, Country := ["es"], Language := "en",
    PubDate := "" }

/-! ### Hub lemmas -/

theorem setSend_mem_same (h : Hub) (c : Nat) (ch : Chan) :
    ((h.setSend c ch).mem c) = { (h.mem c) with Send := ch } := by
  simp [Hub.setSend]

theorem setSend_mem_other (h : Hub) (c d : Nat) (ch : Chan) (hd : d ≠ c) :
    ((h.setSend c ch).mem d) = h.mem d := by
  simp [Hub.setSend, Function.update_noteq hd]

theorem setSend_Clients (h : Hub) (c : Nat) (ch : Chan) :
    (h.setSend c ch).Clients = h.Clients := rfl

/-- What `unregister` does, in closed form. -/
theorem unregister_state (h : Hub) (c : Nat) (hc : c ∈ h.Clients) :
    (h.unregister c).state =
      { Clients := h.Clients.erase c,
        mem := Function.update h.mem c
          { Send := { buf := (h.mem c).Send.buf, closed := true }, Conn := (h.mem c).Conn } } := by
  unfold Hub.unregister
  rw [if_pos hc]
  cases hcl : (h.mem c).Send.closed
  · simp [Chan.close, hcl, Outcome.state, Hub.setSend]
  · simp only [Chan.close, hcl, Outcome.state]
    simp only [if_true]
    congr 1
    funext d
    by_cases hd : d = c
    · subst hd
      simp only [Function.update_same]
      cases hm : h.mem d with
      | mk s cn =>
        cases s with
        | mk b cl =>
          simp only [hm] at hcl
          simp [hcl]
    · simp [Function.update_noteq hd]

/-- Post-state of one loop body that ran to completion. -/
theorem deliver_done (h s : Hub) (m : Message) (c : Nat)
    (hd : h.deliver m c = .done s) :
    (h.mem c).Send.closed = false ∧
    (∀ d, d ≠ c → s.mem d = h.mem d ∧ (d ∈ s.Clients ↔ d ∈ h.Clients)) ∧
    ((h.mem c).Send.buf.length < sendCap →
      s.mem c = { Send := { buf := (h.mem c).Send.buf ++ [m], closed := false },
                  Conn := (h.mem c).Conn } ∧ s.Clients = h.Clients) ∧
    (sendCap ≤ (h.mem c).Send.buf.length →
      s.mem c = { Send := { buf := (h.mem c).Send.buf, closed := true },
                  Conn := (h.mem c).Conn } ∧ s.Clients = h.Clients.erase c) := by
  unfold Hub.deliver Chan.trySend Chan.close at hd
  cases hcl : (h.mem c).Send.closed
  · simp only [hcl] at hd
    refine ⟨rfl, ?_⟩
    by_cases hlen : (h.mem c).Send.buf.length < sendCap
    · simp only [hlen, if_true] at hd
      injection hd with hd
      subst hd
      refine ⟨?_, ?_, ?_⟩
      · intro d hdc
        exact ⟨setSend_mem_other h c d _ hdc, Iff.rfl⟩
      · intro _
        exact ⟨by simp [Hub.setSend], rfl⟩
      · intro hge
        exact absurd hlen (Nat.not_lt.mpr hge)
    · simp only [hlen, if_false] at hd
      simp only [Bool.false_eq_true, if_false] at hd
      injection hd with hd
      subst hd
      refine ⟨?_, ?_, ?_⟩
      · intro d hdc
        refine ⟨setSend_mem_other h c d _ hdc, ?_⟩
        simp [Hub.setSend, Finset.mem_erase, hdc]
      · intro hlt
        exact absurd hlt hlen
      · intro _
        exact ⟨by simp [Hub.setSend], rfl⟩
  · simp [hcl] at hd

/-- A loop body that panics leaves the state as it was, and does so exactly on
a closed mailbox. -/
theorem deliver_panicked (h s : Hub) (m : Message) (c : Nat)
    (hd : h.deliver m c = .panicked s) : s = h ∧ (h.mem c).Send.closed = true := by
  unfold Hub.deliver Chan.trySend Chan.close at hd
  cases hcl : (h.mem c).Send.closed
  · simp only [hcl] at hd
    by_cases hlen : (h.mem c).Send.buf.length < sendCap
    · simp [hlen] at hd
    · simp [hlen] at hd
  · simp only [hcl, if_true] at hd
    injection hd with hd
    exact ⟨hd.symm, rfl⟩

/-- The loop body completes on an open mailbox. -/
theorem deliver_of_open (h : Hub) (m : Message) (c : Nat)
    (ho : (h.mem c).Send.closed = false) : ∃ s, h.deliver m c = .done s := by
  cases hd : h.deliver m c with
  | done s => exact ⟨s, rfl⟩
  | panicked s =>
    have := (deliver_panicked h s m c hd).2
    rw [ho] at this
    exact absurd this (by decide)

/-- Post-state of a broadcast that ran to completion over a duplicate-free
order. -/
theorem broadcast_done (m : Message) :
    ∀ (order : List Nat) (h s : Hub), order.Nodup → h.broadcast m order = .done s →
      (∀ c ∈ order,
        (h.mem c).Send.closed = false ∧
        ((h.mem c).Send.buf.length < sendCap →
          s.mem c = { Send := { buf := (h.mem c).Send.buf ++ [m], closed := false },
                      Conn := (h.mem c).Conn } ∧ (c ∈ s.Clients ↔ c ∈ h.Clients)) ∧
        (sendCap ≤ (h.mem c).Send.buf.length →
          s.mem c = { Send := { buf := (h.mem c).Send.buf, closed := true },
                      Conn := (h.mem c).Conn } ∧ c ∉ s.Clients)) ∧
      (∀ c, c ∉ order → s.mem c = h.mem c ∧ (c ∈ s.Clients ↔ c ∈ h.Clients)) := by
  intro order
  induction order with
  | nil =>
    intro h s _ hb
    simp only [Hub.broadcast] at hb
    injection hb with hb
    subst hb
    exact ⟨fun c hc => absurd hc (List.not_mem_nil c), fun c _ => ⟨rfl, Iff.rfl⟩⟩
  | cons a rest ih =>
    intro h s hnd hb
    have hna : a ∉ rest := (List.nodup_cons.mp hnd).1
    have hnr : rest.Nodup := (List.nodup_cons.mp hnd).2
    simp only [Hub.broadcast] at hb
    cases hd : h.deliver m a with
    | panicked h1 => simp [hd] at hb
    | done h1 =>
      simp only [hd] at hb
      obtain ⟨hopen, hother, hlt, hge⟩ := deliver_done h h1 m a hd
      obtain ⟨ihin, ihout⟩ := ih h1 s hnr hb
      constructor
      · intro c hc
        rcases List.mem_cons.mp hc with hca | hcr
        · subst hca
          obtain ⟨hmem, hcl⟩ := ihout c hna
          refine ⟨hopen, ?_, ?_⟩
          · intro hl
            obtain ⟨h1m, h1c⟩ := hlt hl
            exact ⟨hmem.trans h1m, by rw [hcl, h1c]⟩
          · intro hl
            obtain ⟨h1m, h1c⟩ := hge hl
            refine ⟨hmem.trans h1m, ?_⟩
            rw [hcl, h1c]
            exact Finset.not_mem_erase c h.Clients
        · have hca : c ≠ a := fun e => hna (e ▸ hcr)
          obtain ⟨hm1, hc1⟩ := hother c hca
          obtain ⟨io, il, ig⟩ := ihin c hcr
          rw [hm1] at io il ig
          refine ⟨io, ?_, ?_⟩
          · intro hl
            exact ⟨(il hl).1, (il hl).2.trans hc1⟩
          · intro hl
            exact ig hl
      · intro c hc
        have hca : c ≠ a := fun e => hc (e ▸ List.mem_cons_self a rest)
        have hcr : c ∉ rest := fun e => hc (List.mem_cons_of_mem a e)
        obtain ⟨hm1, hc1⟩ := hother c hca
        obtain ⟨hm2, hc2⟩ := ihout c hcr
        exact ⟨hm2.trans hm1, hc2.trans hc1⟩

/-- A broadcast over a duplicate-free order of open mailboxes completes. -/
theorem broadcast_of_open (m : Message) :
    ∀ (order : List Nat) (h : Hub), order.Nodup →
      (∀ c ∈ order, (h.mem c).Send.closed = false) → ∃ s, h.broadcast m order = .done s := by
  intro order
  induction order with
  | nil => intro h _ _; exact ⟨h, rfl⟩
  | cons a rest ih =>
    intro h hnd ho
    have hna : a ∉ rest := (List.nodup_cons.mp hnd).1
    obtain ⟨h1, hd⟩ := deliver_of_open h m a (ho a (List.mem_cons_self a rest))
    obtain ⟨_, hother, _, _⟩ := deliver_done h h1 m a hd
    have ho1 : ∀ c ∈ rest, (h1.mem c).Send.closed = false := by
      intro c hc
      have hca : c ≠ a := fun e => hna (e ▸ hc)
      rw [(hother c hca).1]
      exact ho c (List.mem_cons_of_mem a hc)
    obtain ⟨s, hs⟩ := ih h1 (List.nodup_cons.mp hnd).2 ho1
    exact ⟨s, by simp only [Hub.broadcast, hd, hs]⟩

/-! ### The hub's three cases -/

/-- C2: unregistering a subscriber that is not in the registry changes nothing
(registry, mailboxes, connections).  Unregistering one that is in the registry
removes exactly that subscriber, leaves its mailbox closed with its content as
it was, and leaves every other subscriber and mailbox unchanged; the case runs
to completion exactly when the mailbox was still open (Go panics on closing a
closed channel, after the deletion).  Unregistering the same subscriber a
second time gives the outcome of unregistering it once. -/
theorem unregister_spec (h : Hub) (c : Nat) :
    (c ∉ h.Clients → h.unregister c = .done h) ∧
    (c ∈ h.Clients →
      (h.unregister c).state.Clients = h.Clients.erase c ∧
      ((h.unregister c).state.mem c).Send = { buf := (h.mem c).Send.buf, closed := true } ∧
      ((h.unregister c).state.mem c).Conn = (h.mem c).Conn ∧
      (∀ d, d ≠ c → (h.unregister c).state.mem d = h.mem d ∧
        (d ∈ (h.unregister c).state.Clients ↔ d ∈ h.Clients)) ∧
      ((∃ s, h.unregister c = .done s) ↔ (h.mem c).Send.closed = false)) ∧
    (h.unregister c).andThen (fun s => s.unregister c) = h.unregister c := by
  refine ⟨?_, ?_, ?_⟩
  · intro hc
    simp [Hub.unregister, hc]
  · intro hc
    rw [unregister_state h c hc]
    refine ⟨rfl, by simp, by simp, ?_, ?_⟩
    · intro d hd
      exact ⟨by simp [Function.update_noteq hd], by simp [Finset.mem_erase, hd]⟩
    · unfold Hub.unregister Chan.close
      rw [if_pos hc]
      cases hcl : (h.mem c).Send.closed <;> simp [hcl]
  · by_cases hc : c ∈ h.Clients
    · unfold Hub.unregister Chan.close
      rw [if_pos hc]
      cases hcl : (h.mem c).Send.closed
      · simp [hcl, Outcome.andThen, Hub.setSend]
      · simp [hcl, Outcome.andThen]
    · simp [Hub.unregister, hc, Outcome.andThen]

/-- Instance of `unregister_spec`: subscriber 7 is not registered in `hubA`,
subscriber 1 is. -/
theorem unregister_spec_witness :
    7 ∉ hubA.Clients ∧ hubA.unregister 7 = .done hubA ∧
    1 ∈ hubA.Clients ∧ (hubA.unregister 1).state.Clients = hubA.Clients.erase 1 :=
  ⟨by decide, (unregister_spec hubA 7).1 (by decide), by decide,
    ((unregister_spec hubA 1).2.1 (by decide)).1⟩

/-- C1: one publish, processed over any iteration order of the registry.  It
runs to completion exactly when every registered subscriber's mailbox is open
(a send on a closed channel panics).  When it has run, every subscriber that was
registered when it began is in one of two states: its mailbox held fewer than
256 messages, and it is still registered with the message appended to its open
mailbox; or its mailbox held 256, and it is no longer registered, its mailbox
is closed and holds what it held.  Every subscriber registered afterwards was
registered before and has the message at the end of its mailbox. -/
theorem publish_offers_every_subscriber (h : Hub) (m : Message) (order : List Nat)
    (hv : ValidOrder h order) :
    ((∃ s, h.broadcast m order = .done s) ↔ h.RegisteredOpen) ∧
    ∀ s, h.broadcast m order = .done s →
      (∀ c ∈ h.Clients,
        ((h.mem c).Send.buf.length < 256 →
          c ∈ s.Clients ∧ (s.mem c).Send.buf = (h.mem c).Send.buf ++ [m] ∧
          (s.mem c).Send.closed = false) ∧
        ((h.mem c).Send.buf.length = 256 →
          c ∉ s.Clients ∧ (s.mem c).Send.closed = true ∧
          (s.mem c).Send.buf = (h.mem c).Send.buf)) ∧
      (∀ c ∈ s.Clients, c ∈ h.Clients ∧ (s.mem c).Send.buf = (h.mem c).Send.buf ++ [m]) := by
  obtain ⟨hnd, hset⟩ := hv
  have hmem : ∀ c, c ∈ order ↔ c ∈ h.Clients := by
    intro c
    rw [← hset, List.mem_toFinset]
  refine ⟨⟨?_, ?_⟩, ?_⟩
  · rintro ⟨s, hs⟩ c hc
    exact ((broadcast_done m order h s hnd hs).1 c ((hmem c).mpr hc)).1
  · intro ho
    exact broadcast_of_open m order h hnd (fun c hc => ho c ((hmem c).mp hc))
  · intro s hs
    obtain ⟨hin, hout⟩ := broadcast_done m order h s hnd hs
    constructor
    · intro c hc
      obtain ⟨_, hlt, hge⟩ := hin c ((hmem c).mpr hc)
      constructor
      · intro hl
        obtain ⟨e, hcs⟩ := hlt hl
        exact ⟨hcs.mpr hc, by rw [e], by rw [e]⟩
      · intro hl
        obtain ⟨e, hcs⟩ := hge (by rw [hl]; exact Nat.le_refl _)
        exact ⟨hcs, by rw [e], by rw [e]⟩
    · intro c hcs
      by_cases hco : c ∈ order
      · obtain ⟨_, hlt, hge⟩ := hin c hco
        by_cases hl : (h.mem c).Send.buf.length < sendCap
        · obtain ⟨e, _⟩ := hlt hl
          exact ⟨(hmem c).mp hco, by rw [e]⟩
        · exact absurd hcs (hge (Nat.not_lt.mp hl)).2
      · have hch : c ∈ h.Clients := (hout c hco).2.mp hcs
        exact absurd ((hmem c).mpr hch) hco

theorem hubA_mem_one : hubA.mem 1 = NewClient := rfl

theorem hubA_mem_two :
    hubA.mem 2 = { Send := { buf := List.replicate 256 msgInfo, closed := false }, Conn := [] } :=
  rfl

theorem hubA_registeredOpen : hubA.RegisteredOpen := by
  intro c hc
  have hcl : hubA.Clients = {1, 2} := rfl
  rw [hcl, Finset.mem_insert, Finset.mem_singleton] at hc
  have h12 : c = 1 ∨ c = 2 := hc
  rcases h12 with h | h <;> subst h
  · rw [hubA_mem_one]; rfl
  · rw [hubA_mem_two]

/-- Instance of `publish_offers_every_subscriber` on `hubA`, visiting 2 then 1:
subscriber 1 has an empty mailbox and subscriber 2 a full one. -/
theorem publish_offers_every_subscriber_witness :
    ValidOrder hubA [2, 1] ∧ hubA.RegisteredOpen ∧
    (hubA.mem 1).Send.buf.length < 256 ∧ (hubA.mem 2).Send.buf.length = 256 ∧
    (((∃ s, hubA.broadcast msgA [2, 1] = .done s) ↔ hubA.RegisteredOpen) ∧
      ∀ s, hubA.broadcast msgA [2, 1] = .done s →
        (∀ c ∈ hubA.Clients,
          ((hubA.mem c).Send.buf.length < 256 →
            c ∈ s.Clients ∧ (s.mem c).Send.buf = (hubA.mem c).Send.buf ++ [msgA] ∧
            (s.mem c).Send.closed = false) ∧
          ((hubA.mem c).Send.buf.length = 256 →
            c ∉ s.Clients ∧ (s.mem c).Send.closed = true ∧
            (s.mem c).Send.buf = (hubA.mem c).Send.buf)) ∧
        (∀ c ∈ s.Clients,
          c ∈ hubA.Clients ∧ (s.mem c).Send.buf = (hubA.mem c).Send.buf ++ [msgA])) :=
  ⟨⟨by decide, by decide⟩, hubA_registeredOpen, by rw [hubA_mem_one]; decide,
    by rw [hubA_mem_two, List.length_replicate],
    publish_offers_every_subscriber hubA msgA [2, 1] ⟨by decide, by decide⟩⟩

/-! ### Order of delivery -/

theorem deliver_enqueued (h : Hub) (m : Message) (c d : Nat) :
    (d ≠ c → (h.deliver m c).state.enqueued d = h.enqueued d) ∧
    ((h.deliver m c).state.enqueued d = h.enqueued d ∨
      (h.deliver m c).state.enqueued d = h.enqueued d ++ [m]) := by
  cases hd : h.deliver m c with
  | panicked s =>
    rw [(deliver_panicked h s m c hd).1]
    exact ⟨fun _ => rfl, Or.inl rfl⟩
  | done s =>
    obtain ⟨_, hother, hlt, hge⟩ := deliver_done h s m c hd
    have hne : d ≠ c → s.enqueued d = h.enqueued d := by
      intro hdc
      simp only [Hub.enqueued, (hother d hdc).1]
    refine ⟨hne, ?_⟩
    by_cases hdc : d = c
    · subst hdc
      by_cases hl : (h.mem d).Send.buf.length < sendCap
      · right
        simp only [Outcome.state, Hub.enqueued, (hlt hl).1, List.append_assoc]
      · left
        simp only [Outcome.state, Hub.enqueued, (hge (Nat.not_lt.mp hl)).1]
    · exact Or.inl (hne hdc)

theorem broadcast_enqueued (m : Message) (d : Nat) :
    ∀ (order : List Nat) (h : Hub), order.Nodup →
      (d ∉ order → (h.broadcast m order).state.enqueued d = h.enqueued d) ∧
      ((h.broadcast m order).state.enqueued d = h.enqueued d ∨
        (h.broadcast m order).state.enqueued d = h.enqueued d ++ [m]) := by
  intro order
  induction order with
  | nil => intro h _; exact ⟨fun _ => rfl, Or.inl rfl⟩
  | cons a rest ih =>
    intro h hnd
    have hna : a ∉ rest := (List.nodup_cons.mp hnd).1
    obtain ⟨hdne, hdor⟩ := deliver_enqueued h m a d
    cases hd : h.deliver m a with
    | panicked h1 =>
      have e : h1 = h := (deliver_panicked h h1 m a hd).1
      subst e
      simp [Hub.broadcast, hd, Outcome.state]
    | done h1 =>
      simp only [hd, Outcome.state] at hdne hdor
      obtain ⟨ihout, ihor⟩ := ih h1 (List.nodup_cons.mp hnd).2
      simp only [Hub.broadcast, hd]
      constructor
      · intro hdo
        have hda : d ≠ a := fun e => hdo (e ▸ List.mem_cons_self a rest)
        have hdr : d ∉ rest := fun e => hdo (List.mem_cons_of_mem a e)
        rw [ihout hdr, hdne hda]
      · by_cases hda : d = a
        · have hdr : d ∉ rest := hda ▸ hna
          rw [ihout hdr]
          exact hdor
        · rw [← hdne hda]
          exact ihor

theorem WritePump_enqueued (h : Hub) (c d : Nat) :
    (h.WritePump c).enqueued d = h.enqueued d := by
  unfold Hub.WritePump
  cases hb : (h.mem c).Send.buf with
  | nil => rfl
  | cons m rest =>
    by_cases hdc : d = c
    · subst hdc
      simp [Hub.enqueued, hb]
    · simp [Hub.enqueued, Function.update_noteq hdc]

theorem unregister_enqueued (h : Hub) (c d : Nat) :
    (h.unregister c).state.enqueued d = h.enqueued d := by
  by_cases hc : c ∈ h.Clients
  · rw [unregister_state h c hc]
    by_cases hdc : d = c
    · subst hdc
      simp [Hub.enqueued]
    · simp [Hub.enqueued, Function.update_noteq hdc]
  · simp [Hub.unregister, hc, Outcome.state]

/-- One event appends to a mailbox history nothing, or the message it
publishes. -/
theorem step_enqueued {h : Hub} {op : Op} {o : Outcome} (hs : Step h op o) (d : Nat) :
    ∃ l, l.Sublist (published [op]) ∧ o.state.enqueued d = h.enqueued d ++ l := by
  cases hs with
  | register c => exact ⟨[], List.nil_sublist _, by simp [Hub.register, Outcome.state, Hub.enqueued]⟩
  | unregister c => exact ⟨[], List.nil_sublist _, by simp [unregister_enqueued]⟩
  | drain c => exact ⟨[], List.nil_sublist _, by simp [Outcome.state, WritePump_enqueued]⟩
  | publish m order hv =>
    rcases (broadcast_enqueued m d order h hv.1).2 with e | e
    · exact ⟨[], List.nil_sublist _, by simp [e]⟩
    · exact ⟨[m], by simp [published], e⟩

theorem published_cons_append (op : Op) (ops : List Op) :
    published (op :: ops) = published [op] ++ published ops := by
  cases op <;> simp [published]

/-- A sequence of events appends to a mailbox history a subsequence of the
messages it publishes. -/
theorem exec_enqueued {h : Hub} {ops : List Op} {o : Outcome} (he : Exec h ops o) (d : Nat) :
    ∃ l, l.Sublist (published ops) ∧ o.state.enqueued d = h.enqueued d ++ l := by
  induction he with
  | nil h => exact ⟨[], List.nil_sublist _, by simp [Outcome.state]⟩
  | @cons h h1 op ops o hs _ ih =>
    obtain ⟨l1, hl1, e1⟩ := step_enqueued hs d
    obtain ⟨l2, hl2, e2⟩ := ih
    refine ⟨l1 ++ l2, ?_, ?_⟩
    · rw [published_cons_append]
      exact List.Sublist.append hl1 hl2
    · simp only [Outcome.state] at e1
      rw [e2, e1, List.append_assoc]
  | @crash h h1 op ops hs =>
    obtain ⟨l1, hl1, e1⟩ := step_enqueued hs d
    refine ⟨l1, ?_, e1⟩
    rw [published_cons_append]
    exact hl1.trans (List.sublist_append_left _ _)

/-- Every sequence of events has an outcome from every state. -/
theorem exec_total (ops : List Op) : ∀ h : Hub, ∃ o, Exec h ops o := by
  induction ops with
  | nil => intro h; exact ⟨_, Exec.nil h⟩
  | cons op ops ih =>
    intro h
    have hstep : ∃ o1, Step h op o1 := by
      cases op with
      | register c => exact ⟨_, Step.register h c⟩
      | unregister c => exact ⟨_, Step.unregister h c⟩
      | drain c => exact ⟨_, Step.drain h c⟩
      | publish m =>
        exact ⟨_, Step.publish h m h.Clients.toList
          ⟨Finset.nodup_toList _, Finset.toList_toFinset _⟩⟩
    obtain ⟨o1, hs⟩ := hstep
    cases o1 with
    | done h1 =>
      obtain ⟨o, ho⟩ := ih h1
      exact ⟨o, Exec.cons hs ho⟩
    | panicked h1 => exact ⟨_, Exec.crash hs⟩

/-- C3: after any sequence of register, unregister and publish events (and
write-pump receives) processed from the initial hub, with every publish free to
visit the registry in any order, the messages ever enqueued on a subscriber's
mailbox, those already taken out by its write pump followed by those still
buffered, form a subsequence of the published messages in publish order: no
message is enqueued twice for one publish and none out of order.  This holds
of the final state and of the state at a panic alike. -/
theorem mailbox_order_follows_publish_order (ops : List Op) (o : Outcome)
    (he : Exec NewHub ops o) (c : Nat) :
    (o.state.enqueued c).Sublist (published ops) := by
  obtain ⟨l, hl, e⟩ := exec_enqueued he c
  rw [e]
  simpa [Hub.enqueued, NewHub, NewClient] using hl

/-- Instance of `mailbox_order_follows_publish_order` on the run `opsA`. -/
theorem mailbox_order_follows_publish_order_witness :
    Exec NewHub opsA outA ∧ (outA.state.enqueued 1).Sublist (published opsA) :=
  have he : Exec NewHub opsA outA :=
    Exec.cons (Step.register NewHub 1)
      (Exec.cons (Step.publish (NewHub.register 1).state msgA [1] ⟨by decide, by decide⟩)
        (Exec.cons (Step.drain ((NewHub.register 1).state.broadcast msgA [1]).state 1)
          (Exec.cons (Step.publish
              ((((NewHub.register 1).state.broadcast msgA [1]).state).WritePump 1) msgA [1]
              ⟨by decide, by decide⟩)
            (Exec.cons (Step.unregister
                (((((NewHub.register 1).state.broadcast msgA [1]).state).WritePump 1).broadcast
                  msgA [1]).state 1)
              (Exec.nil _)))))
  ⟨he, mailbox_order_follows_publish_order opsA outA he 1⟩

/-! ### Text extraction and label normalisation -/

/-- C5: the extracted text is the content when the content is not empty,
otherwise the description (summary) when that is not empty, otherwise the
title.  With content "A", summary "B" and title "C" it is "A"; with empty
content and summary "B" it is "B". -/
theorem extractText_priority (a : NewsArticle) :
    (a.Content ≠ "" → ExtractText a = a.Content) ∧
    (a.Content = "" → a.Description ≠ "" → ExtractText a = a.Description) ∧
    (a.Content = "" → a.Description = "" → ExtractText a = a.Title) ∧
    ExtractText { a with Content := "A", Description := "B", Title := "C" } = "A" ∧
    ExtractText { a with Content := "", Description := "B" } = "B" := by
  refine ⟨?_, ?_, ?_, ?_, ?_⟩
  · intro h; simp [ExtractText, h]
  · intro h1 h2; simp [ExtractText, h1, h2]
  · intro h1 h2; simp [ExtractText, h1, h2]
  · simp [ExtractText]
  · simp [ExtractText]

/-- A label outside the table is mapped to neutral. -/
theorem mapEmotionLabel_of_unknown (l : String)
    (hl : l ∉ ["joy", "sadness", "anger", "fear", "surprise", "love", "neutral"]) :
    mapEmotionLabel l = "neutral" := by
  simp only [List.mem_cons, List.mem_singleton, List.not_mem_nil, or_false, not_or] at hl
  obtain ⟨h1, h2, h3, h4, h5, h6, h7⟩ := hl
  have e1 : (l == "joy") = false := beq_false_of_ne h1
  have e2 : (l == "sadness") = false := beq_false_of_ne h2
  have e3 : (l == "anger") = false := beq_false_of_ne h3
  have e4 : (l == "fear") = false := beq_false_of_ne h4
  have e5 : (l == "surprise") = false := beq_false_of_ne h5
  have e6 : (l == "love") = false := beq_false_of_ne h6
  have e7 : (l == "neutral") = false := beq_false_of_ne h7
  simp only [mapEmotionLabel, labelMap, List.lookup, e1, e2, e3, e4, e5, e6, e7]

/-- C7: every label is mapped into the canonical set; "joy" to happy, "anger"
to angry; a label that is none of the seven provider labels, such as "ennui",
to neutral. -/
theorem mapEmotionLabel_canonical (l : String) :
    mapEmotionLabel l ∈ ["happy", "sad", "angry", "surprised", "neutral"] ∧
    mapEmotionLabel "joy" = "happy" ∧
    mapEmotionLabel "anger" = "angry" ∧
    mapEmotionLabel "ennui" = "neutral" ∧
    (l ∉ ["joy", "sadness", "anger", "fear", "surprise", "love", "neutral"] →
      mapEmotionLabel l = "neutral") := by
  refine ⟨?_, by decide, by decide, by decide, mapEmotionLabel_of_unknown l⟩
  by_cases hl : l ∈ ["joy", "sadness", "anger", "fear", "surprise", "love", "neutral"]
  · simp only [List.mem_cons, List.mem_singleton, List.not_mem_nil, or_false] at hl
    rcases hl with h | h | h | h | h | h | h <;> subst h <;> decide
  · rw [mapEmotionLabel_of_unknown l hl]
    decide

/-! ### Processing one record -/

/-- The slice `text[:min(100, len(text))]` is always in range, and is the first
100 bytes of the text. -/
theorem excerpt_eq (text : String) :
    goSliceTo (goBytes text) (min 100 (goLen text)) = some ((goBytes text).take 100) := by
  unfold goSliceTo Emotisphere.min goLen
  by_cases h : 100 < (goBytes text).length
  · rw [if_pos h, if_pos (Nat.le_of_lt h)]
  · rw [if_neg h, if_pos (Nat.le_refl _), List.take_length,
      List.take_of_length_le (Nat.not_lt.mp h)]

theorem processLocation_ok (ls : LocationService) (countries : List String) :
    ∃ country, ls.ProcessLocation countries = .ok ("", country) := by
  unfold LocationService.ProcessLocation
  cases countries with
  | nil => exact ⟨_, rfl⟩
  | cons first rest =>
    by_cases h : first ≠ ""
    · exact ⟨ls.mapCountryCode first, by simp only [if_pos h]⟩
    · exact ⟨"United States", by simp only [if_neg h]⟩

/-- A record without text has no effects. -/
theorem processArticle_no_text (p : Processor) (k : Nat) (a : NewsArticle)
    (ht : ExtractText a = "") : p.ProcessArticle k a = [] := by
  simp [Processor.ProcessArticle, ht]

/-- A record with text is handed to the classifier first. -/
theorem processArticle_text (p : Processor) (k : Nat) (a : NewsArticle)
    (ht : ExtractText a ≠ "") :
    ∃ rest, p.ProcessArticle k a = .analyze (ExtractText a) :: rest := by
  unfold Processor.ProcessArticle
  simp only [if_neg ht]
  split
  · exact ⟨_, rfl⟩
  · split
    · exact ⟨_, rfl⟩
    · split
      · exact ⟨_, rfl⟩
      · split
        · exact ⟨_, rfl⟩
        · exact ⟨_, rfl⟩

/-- The effects of a record for which every step succeeds. -/
theorem processArticle_success (p : Processor) (k : Nat) (a : NewsArticle)
    (emotion city country : String) (intensity lat lng : Float)
    (ht : ExtractText a ≠ "")
    (he : p.EmotionService.AnalyzeEmotion k (ExtractText a) = .ok (emotion, intensity))
    (hl : p.LocationService.ProcessLocation a.Country = .ok (city, country))
    (hg : p.LocationService.GetCoordinates k city country = .ok (lat, lng)) :
    p.ProcessArticle k a =
      [.analyze (ExtractText a), .geocode city country,
       .broadcast
         { Typ := MessageTypeEmotion,
           Data := { City := city, Country := country, Emotion := emotion,
                     Intensity := intensity, Lat := lat, Lng := lng,
                     Text := (goBytes (ExtractText a)).take 100 } }] := by
  unfold Processor.ProcessArticle
  simp only [if_neg ht, he, hl, hg, excerpt_eq]

/-- Every message a record sends carries the kind `emotion` and the first 100
bytes of the record's text; a record has no message unless it has text and both
adapters succeed; no record panics. -/
theorem processArticle_cases (p : Processor) (k : Nat) (a : NewsArticle) :
    Effect.panic ∉ p.ProcessArticle k a ∧
    ((ExtractText a ≠ "" ∧ p.classifies k a = true ∧ p.geocodes k a = true ∧
        ∃ msg, broadcasts (p.ProcessArticle k a) = [msg] ∧ msg.Typ = MessageTypeEmotion ∧
          msg.Data.Text = (goBytes (ExtractText a)).take 100) ∨
     ((ExtractText a = "" ∨ p.classifies k a = false ∨ p.geocodes k a = false) ∧
        broadcasts (p.ProcessArticle k a) = [])) := by
  by_cases ht : ExtractText a = ""
  · rw [processArticle_no_text p k a ht]
    exact ⟨List.not_mem_nil _, Or.inr ⟨Or.inl ht, rfl⟩⟩
  · obtain ⟨country, hl⟩ := processLocation_ok p.LocationService a.Country
    cases he : p.EmotionService.AnalyzeEmotion k (ExtractText a) with
    | error e =>
      have hpa : p.ProcessArticle k a = [.analyze (ExtractText a)] := by
        unfold Processor.ProcessArticle
        simp only [if_neg ht, he]
      rw [hpa]
      refine ⟨by simp, Or.inr ⟨Or.inr (Or.inl ?_), rfl⟩⟩
      simp [Processor.classifies, he, Except.isOk, Except.toBool]
    | ok r =>
      obtain ⟨emotion, intensity⟩ := r
      cases hg : p.LocationService.GetCoordinates k "" country with
      | error e =>
        have hpa : p.ProcessArticle k a =
            [.analyze (ExtractText a), .geocode "" country] := by
          unfold Processor.ProcessArticle
          simp only [if_neg ht, he, hl, hg]
        rw [hpa]
        refine ⟨by simp, Or.inr ⟨Or.inr (Or.inr ?_), rfl⟩⟩
        simp [Processor.geocodes, hl, hg, Except.isOk, Except.toBool]
      | ok c =>
        obtain ⟨lat, lng⟩ := c
        rw [processArticle_success p k a emotion "" country intensity lat lng ht he hl hg]
        refine ⟨by simp, Or.inl ⟨ht, ?_, ?_, _, rfl, rfl, rfl⟩⟩
        · simp [Processor.classifies, he, Except.isOk, Except.toBool]
        · simp [Processor.geocodes, hl, hg, Except.isOk, Except.toBool]

theorem emotionUp_analyze (k : Nat) (text : String) :
    emotionUp.AnalyzeEmotion k text = .ok ("happy", 0.9) := by
  simp [EmotionService.AnalyzeEmotion, EmotionService.tryEndpoints, EmotionService.endpoints,
    EmotionService.tryAnalyzeWithEndpoint, bestEmotion, emotionUp, mapEmotionLabel, labelMap,
    List.lookup]

theorem locationUp_es : locationUp.ProcessLocation ["es"] = .ok ("", "Spain") := by
  simp [LocationService.ProcessLocation, LocationService.mapCountryCode, locationUp, countryMap,
    List.lookup]

theorem locationUp_spain (k : Nat) :
    locationUp.GetCoordinates k "" "Spain" = .ok (40.4, -3.7) := by
  simp [LocationService.GetCoordinates, locationUp]

/-- Instance of `extractText_priority`: the three example records. -/
theorem extractText_priority_witness :
    (artABC.Content ≠ "" ∧ ExtractText artABC = "A") ∧
    (artB.Content = "" ∧ artB.Description ≠ "" ∧ ExtractText artB = "B") ∧
    (artC.Content = "" ∧ artC.Description = "" ∧ ExtractText artC = "C") :=
  ⟨⟨by decide, (extractText_priority artABC).1 (by decide)⟩,
   ⟨by decide, by decide, (extractText_priority artB).2.1 (by decide) (by decide)⟩,
   ⟨by decide, by decide, (extractText_priority artC).2.2.1 (by decide) (by decide)⟩⟩

/-- Instance of `mapEmotionLabel_canonical` at the unrecognised label "ennui". -/
theorem mapEmotionLabel_canonical_witness :
    "ennui" ∉ ["joy", "sadness", "anger", "fear", "surprise", "love", "neutral"] ∧
    mapEmotionLabel "ennui" = "neutral" :=
  ⟨by decide, (mapEmotionLabel_canonical "ennui").2.2.2.2 (by decide)⟩

/-! ### Region lists -/

/-- Every request `FetchNews` issues names the first five regions it was given
and no others. -/
theorem fetchNews_names_first_five (ns : NewsService) (k : Nat) (countries : List String) :
    ∀ f ∈ (ns.FetchNews k countries).1, f.countries = countries.take 5 := by
  intro f hf
  unfold NewsService.FetchNews at hf
  by_cases hk : ns.APIKey = ""
  · simp [hk] at hf
  · simp only [if_neg hk, List.mem_singleton] at hf
    subst hf
    by_cases hl : countries.length > 5
    · simp only [if_pos hl]
    · simp only [if_neg hl]
      exact (List.take_of_length_le (Nat.not_lt.mp hl)).symm

theorem procA_combined_fails :
    (procA.NewsService.FetchNews 0 regions7).2 =
      .error "failed to fetch news: connection refused" := by
  simp [NewsService.FetchNews, procA, newsDown, regions7]

/-- C4, at a list of seven regions with the news API unreachable: the combined
request names the first five regions, and the fallback then issues one request
for each of the seven, the sixth ("gb") and seventh ("jp") included, which are
not among the first five. -/
theorem processBatch_fallback_fetches_all_regions :
    (procA.ProcessBatch regions7).fetches.map Fetch.countries =
      [["us", "cr", "br", "bo", "es"], ["us"], ["cr"], ["br"], ["bo"], ["es"], ["gb"], ["jp"]] ∧
    regions7.take 5 = ["us", "cr", "br", "bo", "es"] ∧
    regions7.length = 7 ∧ "gb" ∉ regions7.take 5 ∧ "jp" ∉ regions7.take 5 := by
  refine ⟨?_, by decide, by decide, by decide, by decide⟩
  simp [Processor.ProcessBatch, Processor.fallback, NewsService.FetchNews, procA, newsDown,
    regions7]

/-- With a key set, `FetchNews` issues one request, naming the first five
regions it was given. -/
theorem fetchNews_fetches_of_key (ns : NewsService) (k : Nat) (countries : List String)
    (hk : ns.APIKey ≠ "") :
    (ns.FetchNews k countries).1.map Fetch.countries = [countries.take 5] := by
  unfold NewsService.FetchNews
  simp only [if_neg hk, List.map_cons, List.map_nil]
  by_cases hl : countries.length > 5
  · simp only [if_pos hl]
  · simp only [if_neg hl]
    rw [List.take_of_length_le (Nat.not_lt.mp hl)]

/-- The requests of the fallback loop: those of the first region, then those of
the rest. -/
theorem fallback_fetches_cons (p : Processor) (i : Nat) (country : String)
    (rest : List String) :
    (p.fallback i (country :: rest)).1 =
      (p.NewsService.FetchNews (i + 1) [country]).1 ++ (p.fallback (i + 1) rest).1 := by
  rw [Processor.fallback]
  cases hr : (p.NewsService.FetchNews (i + 1) [country]).2 with
  | error e => rfl
  | ok countryArticles =>
    by_cases hl : countryArticles.length > 0
    · simp only [if_pos hl]
    · simp only [if_neg hl]

/-- Every request of the fallback loop names one region of the list. -/
theorem fallback_fetches_single (p : Processor) :
    ∀ (countries : List String) (i : Nat), ∀ f ∈ (p.fallback i countries).1,
      ∃ c ∈ countries, f.countries = [c] := by
  intro countries
  induction countries with
  | nil =>
    intro i f hf
    simp [Processor.fallback] at hf
  | cons country rest ih =>
    intro i f hf
    rw [fallback_fetches_cons, List.mem_append] at hf
    rcases hf with hf | hf
    · refine ⟨country, List.mem_cons_self _ _, ?_⟩
      rw [fetchNews_names_first_five _ _ _ f hf]
      rfl
    · obtain ⟨c, hc, e⟩ := ih (i + 1) f hf
      exact ⟨c, List.mem_cons_of_mem _ hc, e⟩

/-- With a key set, the fallback loop issues one request per region of the
list, in order, each naming that region alone. -/
theorem fallback_fetches_of_key (p : Processor) (hk : p.NewsService.APIKey ≠ "") :
    ∀ (countries : List String) (i : Nat),
      (p.fallback i countries).1.map Fetch.countries = countries.map (fun c => [c]) := by
  intro countries
  induction countries with
  | nil => intro i; rfl
  | cons country rest ih =>
    intro i
    rw [fallback_fetches_cons, List.map_append, ih (i + 1),
      fetchNews_fetches_of_key _ _ _ hk]
    rfl

/-- The requests of a cycle: those of the combined fetch, followed, when it
failed, by those of the fallback loop. -/
theorem processBatch_fetches_eq (p : Processor) (countries : List String) :
    (∀ articles, (p.NewsService.FetchNews 0 countries).2 = .ok articles →
      (p.ProcessBatch countries).fetches = (p.NewsService.FetchNews 0 countries).1) ∧
    (∀ e, (p.NewsService.FetchNews 0 countries).2 = .error e →
      (p.ProcessBatch countries).fetches =
        (p.NewsService.FetchNews 0 countries).1 ++ (p.fallback 0 countries).1) := by
  constructor
  · intro articles hr
    unfold Processor.ProcessBatch
    simp only [hr]
  · intro e hr
    unfold Processor.ProcessBatch
    by_cases h : (p.fallback 0 countries).2.length = 0
    · simp only [hr, if_pos h]
    · simp only [hr, if_neg h]

/-- Every request of a cycle names either the first five regions of the list or
one region of the list alone. -/
theorem processBatch_fetch_shape (p : Processor) (countries : List String) :
    ∀ f ∈ (p.ProcessBatch countries).fetches,
      f.countries = countries.take 5 ∨ ∃ c ∈ countries, f.countries = [c] := by
  intro f hf
  cases hr : (p.NewsService.FetchNews 0 countries).2 with
  | ok articles =>
    rw [(processBatch_fetches_eq p countries).1 articles hr] at hf
    exact Or.inl (fetchNews_names_first_five _ _ _ f hf)
  | error e =>
    rw [(processBatch_fetches_eq p countries).2 e hr, List.mem_append] at hf
    rcases hf with hf | hf
    · exact Or.inl (fetchNews_names_first_five _ _ _ f hf)
    · exact Or.inr (fallback_fetches_single p countries 0 f hf)

/-- C4 as amended: for every region list, every request of a cycle names at most
five regions.  The combined request names exactly the first five entries of the
list, entries beyond the fifth being left out of it; when the combined fetch
fails, the fallback issues one request for each entry of the list, in order,
each naming that entry alone, entries beyond the fifth included.  For a list of
five entries or fewer every request names only regions among the first five. -/
theorem processBatch_fetches (p : Processor) (countries : List String) :
    (∀ f ∈ (p.ProcessBatch countries).fetches, f.countries.length ≤ 5) ∧
    (∀ f ∈ (p.NewsService.FetchNews 0 countries).1, f.countries = countries.take 5) ∧
    (p.NewsService.APIKey ≠ "" →
      ∀ articles, (p.NewsService.FetchNews 0 countries).2 = .ok articles →
        (p.ProcessBatch countries).fetches.map Fetch.countries = [countries.take 5]) ∧
    (p.NewsService.APIKey ≠ "" →
      ∀ e, (p.NewsService.FetchNews 0 countries).2 = .error e →
        (p.ProcessBatch countries).fetches.map Fetch.countries =
          countries.take 5 :: countries.map (fun c => [c])) ∧
    (countries.length ≤ 5 →
      ∀ f ∈ (p.ProcessBatch countries).fetches, ∀ c ∈ f.countries, c ∈ countries.take 5) := by
  refine ⟨?_, fetchNews_names_first_five _ _ _, ?_, ?_, ?_⟩
  · intro f hf
    rcases processBatch_fetch_shape p countries f hf with e | ⟨c, _, e⟩
    · rw [e, List.length_take]
      exact Nat.min_le_left _ _
    · rw [e]
      simp
  · intro hk articles hr
    rw [(processBatch_fetches_eq p countries).1 articles hr, fetchNews_fetches_of_key _ _ _ hk]
  · intro hk e hr
    rw [(processBatch_fetches_eq p countries).2 e hr, List.map_append,
      fetchNews_fetches_of_key _ _ _ hk, fallback_fetches_of_key p hk]
    rfl
  · intro hlen f hf c hc
    rw [List.take_of_length_le hlen]
    rcases processBatch_fetch_shape p countries f hf with e | ⟨d, hd, e⟩
    · rw [e, List.take_of_length_le hlen] at hc
      exact hc
    · rw [e, List.mem_singleton] at hc
      exact hc ▸ hd

/-- Instance of `processBatch_fetches`: seven regions with every request
failing, and three regions with the combined request failing. -/
theorem processBatch_fetches_witness :
    (procA.NewsService.APIKey ≠ "" ∧
      (procA.NewsService.FetchNews 0 regions7).2 =
        .error "failed to fetch news: connection refused" ∧
      (procA.ProcessBatch regions7).fetches.map Fetch.countries =
        regions7.take 5 :: regions7.map (fun c => [c])) ∧
    (["us", "cr", "es"].length ≤ 5 ∧
      ∀ f ∈ (procC.ProcessBatch ["us", "cr", "es"]).fetches, ∀ c ∈ f.countries,
        c ∈ ["us", "cr", "es"].take 5) :=
  ⟨⟨by decide, procA_combined_fails,
     (processBatch_fetches procA regions7).2.2.2.1 (by decide) _ procA_combined_fails⟩,
   ⟨by decide, (processBatch_fetches procC ["us", "cr", "es"]).2.2.2.2 (by decide)⟩⟩

/-! ### Records without text -/

/-- C6, at a record with a title only: content and summary are empty, and the
record is classified, geocoded and broadcast all the same. -/
theorem title_only_record_is_processed :
    artC.Content = "" ∧ artC.Description = "" ∧
    (procA.ProcessArticle 0 artC).length = 3 ∧
    (broadcasts (procA.ProcessArticle 0 artC)).length = 1 := by
  have ht : ExtractText artC = "C" := by decide
  have h := processArticle_success procA 0 artC "happy" "" "Spain" 0.9 40.4 (-3.7)
    (by rw [ht]; decide) (emotionUp_analyze 0 _) locationUp_es (locationUp_spain 0)
  rw [h]
  exact ⟨rfl, rfl, rfl, rfl⟩

/-- C6 as amended: a record whose content, summary and title are all empty is
skipped, with no classification, no geocoding and no message; a record whose
content and summary are empty and whose title is not is processed with the title
as its text, starting with the classification of the title. -/
theorem processArticle_skips_textless (p : Processor) (k : Nat) (a : NewsArticle)
    (hc : a.Content = "") (hd : a.Description = "") :
    (a.Title = "" → p.ProcessArticle k a = []) ∧
    (a.Title ≠ "" → ∃ rest, p.ProcessArticle k a = .analyze a.Title :: rest) := by
  have ht : ExtractText a = a.Title := by simp [ExtractText, hc, hd]
  constructor
  · intro h
    exact processArticle_no_text p k a (ht.trans h)
  · intro h
    have := processArticle_text p k a (by rw [ht]; exact h)
    rwa [ht] at this

/-- Instance of `processArticle_skips_textless`: the record with no text, and
the record with a title only. -/
theorem processArticle_skips_textless_witness :
    (artNone.Content = "" ∧ artNone.Description = "" ∧ artNone.Title = "" ∧
      procA.ProcessArticle 0 artNone = []) ∧
    (artC.Content = "" ∧ artC.Description = "" ∧ artC.Title ≠ "" ∧
      ∃ rest, procA.ProcessArticle 0 artC = .analyze artC.Title :: rest) :=
  ⟨⟨rfl, rfl, rfl, (processArticle_skips_textless procA 0 artNone rfl rfl).1 rfl⟩,
   ⟨rfl, rfl, by decide, (processArticle_skips_textless procA 0 artC rfl rfl).2 (by decide)⟩⟩

/-! ### The text excerpt -/

theorem utf8EncodeChar_ascii (c : Char) (h : c.val ≤ 0x7f) :
    (String.utf8EncodeChar c).length = 1 := by
  simp [String.utf8EncodeChar, h]

theorem flatMap_utf8_ascii (cs : List Char) (h : ∀ c ∈ cs, c.val ≤ 0x7f) :
    (cs.flatMap String.utf8EncodeChar).length = cs.length := by
  induction cs with
  | nil => rfl
  | cons c cs ih =>
    rw [List.flatMap_cons, List.length_append, List.length_cons,
      utf8EncodeChar_ascii c (h c (List.mem_cons_self c cs)),
      ih (fun d hd => h d (List.mem_cons_of_mem c hd))]
    omega

/-- An ASCII text has as many bytes as characters. -/
theorem goLen_ascii (s : String) (h : ∀ c ∈ s.data, c.val ≤ 0x7f) : goLen s = s.length :=
  flatMap_utf8_ascii s.data h

theorem mem_broadcasts_processArticle (p : Processor) (k : Nat) (a : NewsArticle) (msg : Message)
    (hm : msg ∈ broadcasts (p.ProcessArticle k a)) :
    msg.Typ = MessageTypeEmotion ∧ msg.Data.Text = (goBytes (ExtractText a)).take 100 := by
  rcases (processArticle_cases p k a).2 with ⟨_, _, _, m, hb, ht, hx⟩ | ⟨_, hb⟩
  · rw [hb, List.mem_singleton] at hm
    subst hm
    exact ⟨ht, hx⟩
  · rw [hb] at hm
    exact absurd hm (List.not_mem_nil _)

/-- A text of 51 two-byte characters has 51 characters, 100 or fewer, and 102
bytes; the excerpt in the message is its first 100 bytes, not the whole text. -/
theorem excerpt_of_short_text_is_cut :
    textE.length = 51 ∧ ExtractText artE = textE ∧
    (broadcasts (procA.ProcessArticle 0 artE)).map (fun msg => msg.Data.Text) =
      [(goBytes textE).take 100] ∧
    ((goBytes textE).take 100).length = 100 ∧ (goBytes textE).length = 102 ∧
    (goBytes textE).take 100 ≠ goBytes textE := by
  have ht : ExtractText artE = textE := by decide
  have h := processArticle_success procA 0 artE "happy" "" "Spain" 0.9 40.4 (-3.7)
    (by rw [ht]; decide) (emotionUp_analyze 0 _) locationUp_es (locationUp_spain 0)
  rw [h, ht]
  exact ⟨by decide, rfl, rfl, by decide, by decide, by decide⟩

/-- C8, at the text "a" followed by 50 times "é" (51 characters, 101 bytes):
the excerpt in the message is the first 100 bytes of the text, that is "a", 49
times "é" and the byte 0xC3, the first of the two bytes of the 50th "é".  The
text has 100 characters or fewer, yet the excerpt is not the whole text, and it
ends inside a character. -/
theorem excerpt_cuts_inside_character :
    textF.length = 51 ∧ ExtractText artF = textF ∧ (goBytes textF).length = 101 ∧
    (broadcasts (procA.ProcessArticle 0 artF)).map (fun msg => msg.Data.Text) =
      [goBytes (String.mk ('a' :: List.replicate 49 'é')) ++ [0xC3]] ∧
    String.utf8EncodeChar 'é' = [0xC3, 0xA9] ∧
    goBytes (String.mk ('a' :: List.replicate 49 'é')) ++ [0xC3] ≠ goBytes textF := by
  have ht : ExtractText artF = textF := by decide
  have h := processArticle_success procA 0 artF "happy" "" "Spain" 0.9 40.4 (-3.7)
    (by rw [ht]; decide) (emotionUp_analyze 0 _) locationUp_es (locationUp_spain 0)
  have hx : (goBytes textF).take 100 =
      goBytes (String.mk ('a' :: List.replicate 49 'é')) ++ [0xC3] := by decide
  rw [h, ht]
  refine ⟨by decide, rfl, by decide, ?_, by decide, by decide⟩
  simp only [broadcasts, List.map_cons, List.map_nil, hx]

/-- What the slice does, byte for byte, in every message that `ProcessArticle`
sends: the excerpt is the result of `text[:min(100, len(text))]`, which is in
range; it is the first 100 bytes of the text at most, the whole text whenever
the text has 100 bytes or fewer, in particular whenever the text has 100
characters or fewer and all of them are ASCII; and processing never panics.
Where byte 100 falls inside a character, the excerpt ends with part of that
character. -/
theorem excerpt_is_first_100_bytes (p : Processor) (k : Nat) (a : NewsArticle) (msg : Message)
    (hm : msg ∈ broadcasts (p.ProcessArticle k a)) :
    goSliceTo (goBytes (ExtractText a)) (min 100 (goLen (ExtractText a))) = some msg.Data.Text ∧
    msg.Data.Text <+: goBytes (ExtractText a) ∧
    msg.Data.Text.length ≤ 100 ∧
    (goLen (ExtractText a) ≤ 100 → msg.Data.Text = goBytes (ExtractText a)) ∧
    ((∀ c ∈ (ExtractText a).data, c.val ≤ 0x7f) → (ExtractText a).length ≤ 100 →
      msg.Data.Text = goBytes (ExtractText a)) ∧
    Effect.panic ∉ p.ProcessArticle k a := by
  obtain ⟨_, hx⟩ := mem_broadcasts_processArticle p k a msg hm
  have hle : goLen (ExtractText a) ≤ 100 → msg.Data.Text = goBytes (ExtractText a) := by
    intro h
    rw [hx]
    exact List.take_of_length_le h
  refine ⟨?_, ?_, ?_, hle, ?_, (processArticle_cases p k a).1⟩
  · rw [hx]
    exact excerpt_eq _
  · rw [hx]
    exact List.take_prefix _ _
  · rw [hx]
    exact List.length_take_le _ _
  · intro hascii hlen
    apply hle
    rw [goLen_ascii _ hascii]
    exact hlen

/-- The message sent for the record with content "A" carries a text of at most
100 bytes that starts the text of the record. -/
theorem excerpt_is_first_100_bytes_witness :
    (broadcasts (procA.ProcessArticle 0 artABC)).length = 1 ∧
    ∀ msg ∈ broadcasts (procA.ProcessArticle 0 artABC),
      msg.Data.Text <+: goBytes (ExtractText artABC) ∧ msg.Data.Text.length ≤ 100 := by
  have ht : ExtractText artABC = "A" := by decide
  have h := processArticle_success procA 0 artABC "happy" "" "Spain" 0.9 40.4 (-3.7)
    (by rw [ht]; decide) (emotionUp_analyze 0 _) locationUp_es (locationUp_spain 0)
  refine ⟨by rw [h]; rfl, fun msg hm => ?_⟩
  have hw := excerpt_is_first_100_bytes procA 0 artABC msg hm
  exact ⟨hw.2.1, hw.2.2.1⟩

/-! ### Messages per record and per cycle -/

/-- The effects of a cycle are those of processing its records, record `i` as
the `i`-th. -/
theorem processBatch_effects (p : Processor) (countries : List String) :
    (p.ProcessBatch countries).effects = p.processAll (p.ProcessBatch countries).records := by
  unfold Processor.ProcessBatch
  cases hr : (p.NewsService.FetchNews 0 countries).2 with
  | ok articles => simp only [hr]
  | error e =>
    by_cases h : (p.fallback 0 countries).2.length = 0
    · simp only [hr, if_pos h]
      rfl
    · simp only [hr, if_neg h]

theorem broadcasts_of_success (p : Processor) (k : Nat) (a : NewsArticle)
    (ht : ExtractText a ≠ "") (hc : p.classifies k a = true) (hg : p.geocodes k a = true) :
    ∃ msg, broadcasts (p.ProcessArticle k a) = [msg] ∧ msg.Typ = "emotion" := by
  rcases (processArticle_cases p k a).2 with ⟨_, _, _, m, hb, hty, _⟩ | ⟨hf, _⟩
  · exact ⟨m, hb, hty⟩
  · rcases hf with h | h | h
    · exact absurd h ht
    · rw [hc] at h; exact absurd h (by decide)
    · rw [hg] at h; exact absurd h (by decide)

theorem broadcasts_of_failure (p : Processor) (k : Nat) (a : NewsArticle)
    (hf : p.classifies k a = false ∨ p.geocodes k a = false) :
    broadcasts (p.ProcessArticle k a) = [] := by
  rcases (processArticle_cases p k a).2 with ⟨_, hc, hg, _⟩ | ⟨_, hb⟩
  · rcases hf with h | h
    · rw [hc] at h; exact absurd h (by decide)
    · rw [hg] at h; exact absurd h (by decide)
  · exact hb

/-- C9: for the `k`-th record of a cycle, `ProcessArticle` sends exactly one
message, of kind "emotion", when the record has text and classification and
geocoding both succeed; it sends none when classification fails, and none when
geocoding fails.  Hence a cycle over two records, one of which has text and
succeeds in both and the other of which fails geocoding, sends exactly one
message, of kind "emotion". -/
theorem processArticle_publishes (p : Processor) (k : Nat) (a b : NewsArticle)
    (countries : List String) :
    (ExtractText a ≠ "" → p.classifies k a = true → p.geocodes k a = true →
      ∃ msg, broadcasts (p.ProcessArticle k a) = [msg] ∧ msg.Typ = "emotion") ∧
    (p.classifies k a = false → broadcasts (p.ProcessArticle k a) = []) ∧
    (p.geocodes k a = false → broadcasts (p.ProcessArticle k a) = []) ∧
    ((p.ProcessBatch countries).records = [a, b] →
      ExtractText a ≠ "" → p.classifies 0 a = true → p.geocodes 0 a = true →
      p.geocodes 1 b = false →
      ∃ msg, (p.ProcessBatch countries).broadcasts = [msg] ∧ msg.Typ = "emotion") ∧
    ((p.ProcessBatch countries).records = [a, b] →
      p.geocodes 0 a = false →
      ExtractText b ≠ "" → p.classifies 1 b = true → p.geocodes 1 b = true →
      ∃ msg, (p.ProcessBatch countries).broadcasts = [msg] ∧ msg.Typ = "emotion") := by
  refine ⟨broadcasts_of_success p k a, fun h => broadcasts_of_failure p k a (Or.inl h),
    fun h => broadcasts_of_failure p k a (Or.inr h), ?_, ?_⟩
  · intro hr ht hc hg hgb
    obtain ⟨msg, hm, hty⟩ := broadcasts_of_success p 0 a ht hc hg
    refine ⟨msg, ?_, hty⟩
    simp [Cycle.broadcasts, processBatch_effects, hr, Processor.processAll, List.enum, List.enumFrom,
      hm, broadcasts_of_failure p 1 b (Or.inr hgb)]
  · intro hr hga ht hc hg
    obtain ⟨msg, hm, hty⟩ := broadcasts_of_success p 1 b ht hc hg
    refine ⟨msg, ?_, hty⟩
    simp [Cycle.broadcasts, processBatch_effects, hr, Processor.processAll, List.enum, List.enumFrom,
      hm, broadcasts_of_failure p 0 a (Or.inr hga)]

/-- Instance of `processArticle_publishes`: the cycle of `procB` fetches two
records and geocoding fails for the second. -/
theorem processArticle_publishes_witness :
    (procB.ProcessBatch ["es"]).records = [artABC, artB] ∧
    ExtractText artABC ≠ "" ∧ procB.classifies 0 artABC = true ∧
    procB.geocodes 0 artABC = true ∧ procB.geocodes 1 artB = false ∧
    ∃ msg, (procB.ProcessBatch ["es"]).broadcasts = [msg] ∧ msg.Typ = "emotion" := by
  have hr : (procB.ProcessBatch ["es"]).records = [artABC, artB] := by
    simp [Processor.ProcessBatch, NewsService.FetchNews, procB]
  have ht : ExtractText artABC ≠ "" := by decide
  have hc : procB.classifies 0 artABC = true := by
    simp [Processor.classifies, procB, emotionUp_analyze, Except.isOk, Except.toBool]
  have hg : procB.geocodes 0 artABC = true := by
    simp [Processor.geocodes, procB, locationSecondFails, artABC, LocationService.ProcessLocation,
      LocationService.GetCoordinates, LocationService.mapCountryCode, countryMap, List.lookup,
      Except.isOk, Except.toBool]
  have hgb : procB.geocodes 1 artB = false := by
    simp [Processor.geocodes, procB, locationSecondFails, artB, LocationService.ProcessLocation,
      LocationService.GetCoordinates, LocationService.mapCountryCode, countryMap, List.lookup,
      Except.isOk, Except.toBool]
  exact ⟨hr, ht, hc, hg, hgb,
    (processArticle_publishes procB 0 artABC artB ["es"]).2.2.2.1 hr ht hc hg hgb⟩

/-! ### Start and Stop -/

/-- C10: `Stop` on a processor that is not running sends no stop signal and
leaves the processor as it was; `Start` on a processor that is running returns
with the processor as it was and starts no cycle, whatever the interval, the
regions and the events that follow. -/
theorem stop_idle_and_start_running_are_noops (p : Processor) (interval : Int)
    (countries : List String) (events : List LoopEvent) :
    (p.Running = false → p.Stop = (p, [])) ∧
    (p.Running = true → p.Start interval countries events = (p, [])) := by
  constructor
  · intro h
    simp [Processor.Stop, h]
  · intro h
    simp [Processor.Start, h]

/-- Instance of `stop_idle_and_start_running_are_noops`: `procA` is idle; set
running, it ignores a second `Start`. -/
theorem stop_idle_and_start_running_are_noops_witness :
    (procA.Running = false ∧ procA.Stop = (procA, [])) ∧
    ({ procA with Running := true }.Running = true ∧
      { procA with Running := true }.Start 1000000000 regions7 [.tick, .stop] =
        ({ procA with Running := true }, [])) :=
  ⟨⟨rfl, (stop_idle_and_start_running_are_noops procA 0 [] []).1 rfl⟩,
   ⟨rfl, (stop_idle_and_start_running_are_noops { procA with Running := true } 1000000000
      regions7 [.tick, .stop]).2 rfl⟩⟩

/-! ### The fallback of a cycle -/

/-- The records the fallback loop collects from position `i` on. -/
theorem fallback_records (p : Processor) :
    ∀ (countries : List String) (i : Nat),
      (p.fallback i countries).2 =
        (countries.enumFrom i).flatMap (fun ic =>
          match (p.NewsService.FetchNews (ic.1 + 1) [ic.2]).2 with
          | .ok countryArticles => countryArticles
          | .error _ => []) := by
  intro countries
  induction countries with
  | nil => intro i; rfl
  | cons country rest ih =>
    intro i
    rw [List.enumFrom_cons, List.flatMap_cons, ← ih (i + 1), Processor.fallback]
    cases hr : (p.NewsService.FetchNews (i + 1) [country]).2 with
    | error e => simp only [List.nil_append]
    | ok countryArticles =>
      by_cases hl : countryArticles.length > 0
      · simp only [if_pos hl]
      · simp only [if_neg hl]
        have : countryArticles = [] := List.length_eq_zero.mp (Nat.eq_zero_of_not_pos hl)
        rw [this, List.nil_append]

/-- C11: when the combined fetch of a cycle fails, the records of the cycle,
which are the records handed to `ProcessArticle`, are the concatenation, in
region order, of the results of the per-region fetches that succeeded; and when
that concatenation is empty the cycle has no record, no effect of processing and
no message for the hub. -/
theorem processBatch_fallback_records (p : Processor) (countries : List String) (e : String)
    (hf : (p.NewsService.FetchNews 0 countries).2 = .error e) :
    (p.ProcessBatch countries).records = perRegionResults p countries ∧
    (p.ProcessBatch countries).effects = p.processAll (perRegionResults p countries) ∧
    (perRegionResults p countries = [] →
      (p.ProcessBatch countries).records = [] ∧ (p.ProcessBatch countries).effects = [] ∧
      (p.ProcessBatch countries).broadcasts = []) := by
  have hfb : (p.fallback 0 countries).2 = perRegionResults p countries :=
    fallback_records p countries 0
  have hrec : (p.ProcessBatch countries).records = perRegionResults p countries := by
    unfold Processor.ProcessBatch
    by_cases h : (p.fallback 0 countries).2.length = 0
    · simp only [hf, if_pos h]
      rw [← hfb]
      exact (List.length_eq_zero.mp h).symm
    · simp only [hf, if_neg h]
      exact hfb
  have heff : (p.ProcessBatch countries).effects = p.processAll (perRegionResults p countries) := by
    rw [processBatch_effects, hrec]
  refine ⟨hrec, heff, ?_⟩
  intro hempty
  refine ⟨hrec.trans hempty, ?_, ?_⟩
  · rw [heff, hempty]
    rfl
  · unfold Cycle.broadcasts
    rw [heff, hempty]
    rfl

theorem procC_combined_fails :
    (procC.NewsService.FetchNews 0 ["us", "cr", "es"]).2 =
      .error "failed to fetch news: connection refused" := by
  simp [NewsService.FetchNews, procC, newsPartly]

theorem procC_perRegionResults : perRegionResults procC ["us", "cr", "es"] = [artABC, artB] := by
  simp [perRegionResults, List.enum, List.enumFrom, NewsService.FetchNews, procC, newsPartly]

theorem procA_perRegionResults : perRegionResults procA regions7 = [] := by
  simp [perRegionResults, List.enum, List.enumFrom, NewsService.FetchNews, procA, newsDown,
    regions7]

/-- Instance of `processBatch_fallback_records`: with `procC` the combined fetch
fails, the fetches for the first and third region succeed and the one for the
second fails; with `procA` every fetch fails. -/
theorem processBatch_fallback_records_witness :
    ((procC.NewsService.FetchNews 0 ["us", "cr", "es"]).2 =
        .error "failed to fetch news: connection refused" ∧
      perRegionResults procC ["us", "cr", "es"] = [artABC, artB] ∧
      (procC.ProcessBatch ["us", "cr", "es"]).records =
        perRegionResults procC ["us", "cr", "es"]) ∧
    ((procA.NewsService.FetchNews 0 regions7).2 =
        .error "failed to fetch news: connection refused" ∧
      perRegionResults procA regions7 = [] ∧
      (procA.ProcessBatch regions7).records = [] ∧ (procA.ProcessBatch regions7).effects = [] ∧
      (procA.ProcessBatch regions7).broadcasts = []) :=
  ⟨⟨procC_combined_fails, procC_perRegionResults,
     (processBatch_fallback_records procC ["us", "cr", "es"] _ procC_combined_fails).1⟩,
   ⟨procA_combined_fails, procA_perRegionResults,
     (processBatch_fallback_records procA regions7 _ procA_combined_fails).2.2
       procA_perRegionResults⟩⟩

/-! ### The registry invariant -/

/-- Unregistering completes when the mailbox is open or the subscriber is not
registered. -/
theorem unregister_of_open (h : Hub) (c : Nat)
    (ho : c ∈ h.Clients → (h.mem c).Send.closed = false) : ∃ s, h.unregister c = .done s := by
  unfold Hub.unregister Chan.close
  by_cases hc : c ∈ h.Clients
  · simp only [if_pos hc, ho hc]
    exact ⟨_, rfl⟩
  · simp only [if_neg hc]
    exact ⟨_, rfl⟩

theorem WritePump_closed (h : Hub) (c d : Nat) :
    ((h.WritePump c).mem d).Send.closed = (h.mem d).Send.closed ∧
    (h.WritePump c).Clients = h.Clients := by
  unfold Hub.WritePump
  cases hb : (h.mem c).Send.buf with
  | nil => exact ⟨rfl, rfl⟩
  | cons m rest =>
    refine ⟨?_, rfl⟩
    by_cases hdc : d = c
    · subst hdc
      simp
    · simp [Function.update_noteq hdc]

/-- No event panics from a state in which every registered mailbox is open. -/
theorem step_no_panic {h h1 : Hub} {op : Op} (hs : Step h op (.panicked h1))
    (hinv : h.RegisteredOpen) : False := by
  generalize ho : Outcome.panicked h1 = o at hs
  cases hs with
  | register c => simp [Hub.register] at ho
  | unregister c =>
    obtain ⟨s, e⟩ := unregister_of_open h c (hinv c)
    rw [e] at ho
    exact Outcome.noConfusion ho
  | publish m order hv =>
    have hopen : ∀ c ∈ order, (h.mem c).Send.closed = false := by
      intro c hc
      apply hinv
      rw [← hv.2, List.mem_toFinset]
      exact hc
    obtain ⟨s, e⟩ := broadcast_of_open m order h hv.1 hopen
    rw [e] at ho
    exact Outcome.noConfusion ho
  | drain c => exact Outcome.noConfusion ho

/-- An event that completes keeps every registered mailbox open, and keeps the
subscribers still to be registered unregistered and open. -/
theorem step_keeps_open {h h1 : Hub} {op : Op} {ops : List Op} (hs : Step h op (.done h1))
    (hinv : h.RegisteredOpen) (honce : (registers (op :: ops)).Nodup)
    (hfresh : ∀ c ∈ registers (op :: ops), c ∉ h.Clients ∧ (h.mem c).Send.closed = false) :
    h1.RegisteredOpen ∧ (registers ops).Nodup ∧
    (∀ c ∈ registers ops, c ∉ h1.Clients ∧ (h1.mem c).Send.closed = false) := by
  generalize ho : Outcome.done h1 = o at hs
  cases hs with
  | register c =>
    simp only [Hub.register, Outcome.done.injEq] at ho
    subst ho
    simp only [registers, List.nodup_cons] at honce
    simp only [registers, List.mem_cons] at hfresh
    refine ⟨?_, honce.2, ?_⟩
    · intro d hd
      rcases Finset.mem_insert.mp hd with hdc | hdh
      · subst hdc
        exact (hfresh d (Or.inl rfl)).2
      · exact hinv d hdh
    · intro d hd
      have hdc : d ≠ c := fun e => honce.1 (e ▸ hd)
      obtain ⟨hn, hopen⟩ := hfresh d (Or.inr hd)
      refine ⟨?_, hopen⟩
      intro hmem
      rcases Finset.mem_insert.mp hmem with e | e
      · exact hdc e
      · exact hn e
  | unregister c =>
    simp only [registers] at honce hfresh
    by_cases hc : c ∈ h.Clients
    · have hst := unregister_state h c hc
      rw [← ho] at hst
      simp only [Outcome.state] at hst
      subst hst
      refine ⟨?_, honce, ?_⟩
      · intro d hd
        have hdc : d ≠ c := (Finset.mem_erase.mp hd).1
        simp only [Function.update_noteq hdc]
        exact hinv d (Finset.mem_erase.mp hd).2
      · intro d hd
        obtain ⟨hn, hopen⟩ := hfresh d hd
        have hdc : d ≠ c := fun e => hn (e ▸ hc)
        refine ⟨fun hmem => hn (Finset.mem_erase.mp hmem).2, ?_⟩
        simp only [Function.update_noteq hdc]
        exact hopen
    · simp only [Hub.unregister, if_neg hc, Outcome.done.injEq] at ho
      subst ho
      exact ⟨hinv, honce, hfresh⟩
  | publish m order hv =>
    simp only [registers] at honce hfresh
    obtain ⟨hin, hout⟩ := broadcast_done m order h h1 hv.1 ho.symm
    have hmem : ∀ c, c ∈ order ↔ c ∈ h.Clients := by
      intro c
      rw [← hv.2, List.mem_toFinset]
    refine ⟨?_, honce, ?_⟩
    · intro d hd
      by_cases hdo : d ∈ order
      · obtain ⟨_, hlt, hge⟩ := hin d hdo
        by_cases hl : (h.mem d).Send.buf.length < sendCap
        · rw [(hlt hl).1]
        · exact absurd hd (hge (Nat.not_lt.mp hl)).2
      · obtain ⟨e, hcl⟩ := hout d hdo
        exact absurd ((hmem d).mpr (hcl.mp hd)) hdo
    · intro d hd
      obtain ⟨hn, hopen⟩ := hfresh d hd
      have hdo : d ∉ order := fun e => hn ((hmem d).mp e)
      obtain ⟨e, hcl⟩ := hout d hdo
      exact ⟨fun hm => hn (hcl.mp hm), by rw [e]; exact hopen⟩
  | drain c =>
    simp only [registers] at honce hfresh
    simp only [Outcome.done.injEq] at ho
    subst ho
    refine ⟨?_, honce, ?_⟩
    · intro d hd
      rw [(WritePump_closed h c d).1]
      rw [(WritePump_closed h c d).2] at hd
      exact hinv d hd
    · intro d hd
      rw [(WritePump_closed h c d).1, (WritePump_closed h c d).2]
      exact hfresh d hd

/-- A run in which every subscriber is registered at most once, not being
registered already and having an open mailbox, never panics and ends with every
registered mailbox open. -/
theorem exec_keeps_open {h : Hub} {ops : List Op} {o : Outcome} (he : Exec h ops o) :
    h.RegisteredOpen → (registers ops).Nodup →
    (∀ c ∈ registers ops, c ∉ h.Clients ∧ (h.mem c).Send.closed = false) →
    ∃ s, o = .done s ∧ s.RegisteredOpen := by
  induction he with
  | nil h => intro hinv _ _; exact ⟨h, rfl, hinv⟩
  | @cons h h1 op ops o hs _ ih =>
    intro hinv honce hfresh
    obtain ⟨h1inv, h1once, h1fresh⟩ := step_keeps_open hs hinv honce hfresh
    exact ih h1inv h1once h1fresh
  | @crash h h1 op ops hs =>
    intro hinv _ _
    exact absurd (step_no_panic hs hinv) id

/-- A single event as a run. -/
theorem exec_single {h : Hub} {op : Op} {o : Outcome} (hs : Step h op o) : Exec h [op] o := by
  cases o with
  | done h1 => exact Exec.cons hs (Exec.nil h1)
  | panicked h1 => exact Exec.crash hs

/-- What an open registry gives the next event: a publish completes over every
iteration order, and an unregister of any subscriber completes. -/
theorem open_next_event (s : Hub) (hinv : s.RegisteredOpen) :
    (∀ m order, ValidOrder s order → ∃ s1, s.broadcast m order = .done s1) ∧
    (∀ c, ∃ s1, s.unregister c = .done s1) := by
  constructor
  · intro m order hv
    apply broadcast_of_open m order s hv.1
    intro c hc
    apply hinv
    rw [← hv.2, List.mem_toFinset]
    exact hc
  · intro c
    exact unregister_of_open s c (hinv c)

/-- C12: take a run of register, unregister and publish events (and write-pump
receives) in which every subscriber is registered at most once, is not
registered already and has an open mailbox, started from a state in which every
registered mailbox is open.  The run does not panic, so no publish in it sends
on a closed mailbox and no mailbox is closed twice; in the state it reaches
every registered subscriber has an open mailbox, the next publish completes
over every iteration order, and the next unregister of any subscriber, one
already dropped for a full mailbox included, completes.  In particular this
holds of every run from the initial hub that registers no subscriber twice. -/
theorem registered_mailboxes_stay_open (h0 : Hub) (ops : List Op) (o : Outcome) :
    (h0.RegisteredOpen → (registers ops).Nodup →
      (∀ c ∈ registers ops, c ∉ h0.Clients ∧ (h0.mem c).Send.closed = false) →
      Exec h0 ops o →
      ∃ s, o = .done s ∧ s.RegisteredOpen ∧
        (∀ m order, ValidOrder s order → ∃ s1, s.broadcast m order = .done s1) ∧
        (∀ c, ∃ s1, s.unregister c = .done s1)) ∧
    ((registers ops).Nodup → Exec NewHub ops o →
      ∃ s, o = .done s ∧ s.RegisteredOpen ∧
        (∀ m order, ValidOrder s order → ∃ s1, s.broadcast m order = .done s1) ∧
        (∀ c, ∃ s1, s.unregister c = .done s1)) := by
  constructor
  · intro hinv honce hfresh he
    obtain ⟨s, e, hs⟩ := exec_keeps_open he hinv honce hfresh
    exact ⟨s, e, hs, open_next_event s hs⟩
  · intro honce he
    have hinv : NewHub.RegisteredOpen := fun c _ => rfl
    have hfresh : ∀ c ∈ registers ops, c ∉ NewHub.Clients ∧ (NewHub.mem c).Send.closed = false :=
      fun c _ => ⟨Finset.not_mem_empty c, rfl⟩
    obtain ⟨s, e, hs⟩ := exec_keeps_open he hinv honce hfresh
    exact ⟨s, e, hs, open_next_event s hs⟩

theorem exec_opsB : Exec hubA opsB outB := by
  have hv : ValidOrder hubA [2, 1] := ⟨by decide, by decide⟩
  have hopen : ∀ c ∈ [2, 1], (hubA.mem c).Send.closed = false := by
    intro c hc
    apply hubA_registeredOpen
    rw [← hv.2, List.mem_toFinset]
    exact hc
  obtain ⟨s, hs⟩ := broadcast_of_open msgA [2, 1] hubA hv.1 hopen
  have hstep : Step hubA (.publish msgA) (.done s) := hs ▸ Step.publish hubA msgA [2, 1] hv
  have hout : outB = s.unregister 2 := by
    simp only [outB, hs, Outcome.andThen]
  rw [hout]
  exact Exec.cons hstep (exec_single (Step.unregister s 2))

theorem exec_opsC : Exec NewHub opsC outC :=
  Exec.cons (Step.register NewHub 1)
    (Exec.cons (Step.publish (NewHub.register 1).state msgA [1] ⟨by decide, by decide⟩)
      (Exec.cons (Step.unregister ((NewHub.register 1).state.broadcast msgA [1]).state 1)
        (Exec.cons (Step.unregister
            ((((NewHub.register 1).state.broadcast msgA [1]).state).unregister 1).state 1)
          (Exec.nil _))))

/-- Instance of `registered_mailboxes_stay_open`: from `hubA`, the run `opsB`
drops the full subscriber 2 and then unregisters it; from the initial hub, the
run `opsC` registers subscriber 1 once and unregisters it twice. -/
theorem registered_mailboxes_stay_open_witness :
    (hubA.RegisteredOpen ∧ (registers opsB).Nodup ∧ Exec hubA opsB outB ∧
      ∃ s, outB = .done s ∧ s.RegisteredOpen ∧
        (∀ m order, ValidOrder s order → ∃ s1, s.broadcast m order = .done s1) ∧
        (∀ c, ∃ s1, s.unregister c = .done s1)) ∧
    ((registers opsC).Nodup ∧ Exec NewHub opsC outC ∧
      ∃ s, outC = .done s ∧ s.RegisteredOpen ∧
        (∀ m order, ValidOrder s order → ∃ s1, s.broadcast m order = .done s1) ∧
        (∀ c, ∃ s1, s.unregister c = .done s1)) :=
  ⟨⟨hubA_registeredOpen, by decide, exec_opsB,
     (registered_mailboxes_stay_open hubA opsB outB).1 hubA_registeredOpen (by decide)
       (fun c hc => absurd hc (List.not_mem_nil c)) exec_opsB⟩,
   ⟨by decide, exec_opsC,
     (registered_mailboxes_stay_open NewHub opsC outC).2 (by decide) exec_opsC⟩⟩

/-- The proviso is needed: a subscriber registered again after its mailbox was
closed makes the next publish panic. -/
theorem reregistered_closed_subscriber_panics :
    ∃ h, Exec NewHub [.register 1, .unregister 1, .register 1, .publish msgA] (.panicked h) :=
  ⟨_, Exec.cons (Step.register NewHub 1)
    (Exec.cons (Step.unregister (NewHub.register 1).state 1)
      (Exec.cons (Step.register ((NewHub.register 1).state.unregister 1).state 1)
        (Exec.crash (Step.publish
          ((((NewHub.register 1).state.unregister 1).state).register 1).state msgA [1]
          ⟨by decide, by decide⟩))))⟩

end Emotisphere
